import Mathlib

/-!
Shallow embedding of the icon-normalizer batch pipeline
(duplicate detection, AI-classification orchestration, response parsing,
metadata embedding) and proofs about the claims of its specification.

Modelling conventions, used throughout:
* JavaScript numbers are modelled exactly: a number is a `Frac` (an exact
  fraction of an `Int` numerator over a `Nat` denominator, compared by
  cross-multiplication) or the explicit NaN marker of `JSNum`.  IEEE-754
  rounding is out of scope; every concrete input used below is chosen so
  that the exact value and the double value coincide.  `Frac.val` maps a
  fraction to the rational it denotes, and specification-level statements
  are phrased over `ℚ` through it.
* JavaScript strings are modelled as Lean `String` / `List Char`; string
  scanning (`match`, `replace`, `split`, `trim`, ...) is re-implemented
  below on `List Char` following the exact regexes of the source.
  `String.prototype.localeCompare` is modelled as code-point lexicographic
  comparison (exact for the ASCII file names used by the tool).
* Sets (`Set<string>`) are modelled as lists used only through membership.
* `async` plumbing is dropped: every awaited value in the modelled code is
  data-dependent only, so the functions become plain sequential functions.
-/

set_option maxRecDepth 100000

/-- An exact fraction: numerator over (positive, by construction)
denominator.  All arithmetic the modelled code performs keeps the
denominator positive, and the comparison operators below are the exact
semantics of the JS comparisons under that invariant. -/
structure Frac where
  n : Int
  d : Nat
deriving DecidableEq, Repr

namespace Frac

/-- The rational value denoted by a fraction. -/
def val (f : Frac) : ℚ := (f.n : ℚ) / (f.d : ℚ)

def ofInt (i : Int) : Frac := ⟨i, 1⟩

/-- Exact subtraction. -/
def sub (a b : Frac) : Frac := ⟨a.n * b.d - b.n * a.d, a.d * b.d⟩

/-- Exact addition. -/
def add (a b : Frac) : Frac := ⟨a.n * b.d + b.n * a.d, a.d * b.d⟩

/-- Exact multiplication. -/
def mul (a b : Frac) : Frac := ⟨a.n * b.n, a.d * b.d⟩

/-- Exact division by a positive natural number (the only division shape
the modelled code performs). -/
def divByNat (a : Frac) (m : Nat) : Frac := ⟨a.n, a.d * m⟩

/-- `a <= b` by cross-multiplication (exact for positive denominators). -/
def le (a b : Frac) : Bool := a.n * b.d ≤ b.n * a.d

/-- `a < b` by cross-multiplication (exact for positive denominators). -/
def lt (a b : Frac) : Bool := a.n * b.d < b.n * a.d

/-- `a === b` by cross-multiplication (exact for positive denominators). -/
def eqb (a b : Frac) : Bool := a.n * b.d == b.n * a.d

/-- JavaScript `Math.min` on plain numbers. -/
def minF (a b : Frac) : Frac := if le a b then a else b

/-- JavaScript `Math.max` on plain numbers. -/
def maxF (a b : Frac) : Frac := if le b a then a else b

theorem le_iff {a b : Frac} (ha : 0 < a.d) (hb : 0 < b.d) :
    le a b = true ↔ a.val ≤ b.val := by
  have ha2 : (0 : ℚ) < (a.d : ℚ) := by exact_mod_cast ha
  have hb2 : (0 : ℚ) < (b.d : ℚ) := by exact_mod_cast hb
  rw [le, decide_eq_true_eq, val, val, div_le_div_iff₀ ha2 hb2]
  exact_mod_cast Iff.rfl

theorem val_nonneg {f : Frac} (h : 0 ≤ f.n) : 0 ≤ f.val := by
  have : (0 : ℚ) ≤ (f.n : ℚ) := by exact_mod_cast h
  exact div_nonneg this (by positivity)

end Frac

/-- A JavaScript number: an exact fraction or NaN. -/
inductive JSNum where
  | num (f : Frac)
  | nan
deriving DecidableEq, Repr

namespace JSNum

/-- JavaScript `x >= t` for a plain (non-NaN) right-hand side `t`:
false whenever `x` is NaN. -/
def geQ : JSNum → Frac → Bool
  | num a, t => Frac.le t a
  | nan, _ => false

/-- JavaScript `x > t` for a plain right-hand side `t`. -/
def gtQ : JSNum → Frac → Bool
  | num a, t => Frac.lt t a
  | nan, _ => false

/-- JavaScript `x === t` for a plain right-hand side `t`. -/
def eqQ : JSNum → Frac → Bool
  | num a, t => Frac.eqb a t
  | nan, _ => false

/-- JavaScript `Math.min(a, b)`: NaN-propagating minimum. -/
def jsMin : JSNum → JSNum → JSNum
  | num a, num b => num (Frac.minF a b)
  | _, _ => nan

/-- JavaScript `Math.max(a, b)`: NaN-propagating maximum. -/
def jsMax : JSNum → JSNum → JSNum
  | num a, num b => num (Frac.maxF a b)
  | _, _ => nan

/-- `Math.min(...list)` for a non-empty argument list (the only way the
source calls it); the empty case (which JS maps to +Infinity) is never
reached and is mapped to NaN. -/
def minList : List JSNum → JSNum
  | [] => nan
  | x :: xs => xs.foldl jsMin x

end JSNum

/-- One scanned icon file (`IconInfo` of `src/types/index.ts`). -/
structure IconInfo where
  id : String
  filename : String
  path : String
  content : String
  size : Nat
  hash : String
deriving DecidableEq, Repr

/-- `'keep' | 'remove' | 'review'` of `DuplicateGroup.recommendation`. -/
inductive Recommendation where
  | keep
  | remove
  | review
deriving DecidableEq, Repr

/-- A duplicate group (`DuplicateGroup` of `src/types/index.ts`). -/
structure DuplicateGroup where
  master : IconInfo
  duplicates : List IconInfo
  similarity : JSNum
  recommendation : Recommendation
deriving DecidableEq, Repr

/-- Code-point comparison of strings as character lists, modelling
`localeCompare`-based sorting for ASCII names: `charListLe a b` is true
iff `a` is lexicographically ≤ `b`. -/
def charListLe : List Char → List Char → Bool
  | [], _ => true
  | _ :: _, [] => false
  | a :: as, b :: bs =>
    if a.toNat < b.toNat then true
    else if b.toNat < a.toNat then false
    else charListLe as bs

/-- Lexicographic ≤ on strings (model of the `localeCompare` comparator). -/
def strLe (a b : String) : Bool := charListLe a.data b.data

namespace CryptoUtils

/-- Mismatch counter of `CryptoUtils.calculateSimilarity`
(`src/utils/crypto-utils.ts`): position-wise mismatch count over `hash1`,
where a position beyond the end of `hash2` compares unequal (JS reads
`undefined` there). -/
def countMismatch : List Char → List Char → Nat
  | [], _ => 0
  | _ :: as, [] => countMismatch as [] + 1
  | a :: as, b :: bs => countMismatch as bs + (if a = b then 0 else 1)

/-- `CryptoUtils.calculateSimilarity`: `1 - distance / hash1.length`.
For an empty `hash1` the JS expression is `1 - 0/0 = NaN`. -/
def calculateSimilarity (hash1 hash2 : String) : JSNum :=
  if hash1.data.length = 0 then JSNum.nan
  else JSNum.num
    (Frac.sub (Frac.ofInt 1)
      (Frac.divByNat (Frac.ofInt (countMismatch hash1.data hash2.data)) hash1.data.length))

end CryptoUtils

namespace DuplicateDetector

/-- `generateRecommendation` (`src/core/duplicate-detector.ts` lines
129-137).  The `master`/`duplicates` parameters of the source are unused
there and omitted. -/
def generateRecommendation (similarity : JSNum) : Recommendation :=
  if similarity.eqQ (Frac.ofInt 1) then .remove
  else if similarity.geQ ⟨9, 10⟩ then .keep
  else .review

/-- Keys of the `hashGroups` map in first-occurrence order (JS `Map`
iteration order), with `seen` the keys already inserted. -/
def hashKeysAux : List IconInfo → List String → List String
  | [], _ => []
  | i :: rest, seen =>
    if i.hash ∈ seen then hashKeysAux rest seen
    else i.hash :: hashKeysAux rest (i.hash :: seen)

def hashKeys (icons : List IconInfo) : List String := hashKeysAux icons []

theorem charListLe_total (a b : List Char) :
    charListLe a b = true ∨ charListLe b a = true := by
  induction a generalizing b with
  | nil => left; rfl
  | cons x as ih =>
    cases b with
    | nil => right; rfl
    | cons y bs =>
      by_cases hxy : x.toNat < y.toNat
      · left; simp [charListLe, hxy]
      · by_cases hyx : y.toNat < x.toNat
        · right; simp [charListLe, hyx]
        · rcases ih bs with h | h
          · left; simp [charListLe, hxy, hyx, h]
          · right; simp [charListLe, hxy, hyx, h]

theorem charListLe_trans {a b c : List Char} (hab : charListLe a b = true)
    (hbc : charListLe b c = true) : charListLe a c = true := by
  induction a generalizing b c with
  | nil => rfl
  | cons x as ih =>
    cases b with
    | nil => simp [charListLe] at hab
    | cons y bs =>
      cases c with
      | nil => simp [charListLe] at hbc
      | cons z cs =>
        have hab2 : x.toNat < y.toNat ∨ (x.toNat = y.toNat ∧ charListLe as bs = true) := by
          by_cases h1 : x.toNat < y.toNat
          · exact Or.inl h1
          · by_cases h2 : y.toNat < x.toNat
            · simp [charListLe, h1, h2] at hab
            · exact Or.inr ⟨by omega, by simpa [charListLe, h1, h2] using hab⟩
        have hbc2 : y.toNat < z.toNat ∨ (y.toNat = z.toNat ∧ charListLe bs cs = true) := by
          by_cases h1 : y.toNat < z.toNat
          · exact Or.inl h1
          · by_cases h2 : z.toNat < y.toNat
            · simp [charListLe, h1, h2] at hbc
            · exact Or.inr ⟨by omega, by simpa [charListLe, h1, h2] using hbc⟩
        rcases hab2 with h1 | ⟨h1, h1c⟩ <;> rcases hbc2 with h2 | ⟨h2, h2c⟩
        · have hxz : x.toNat < z.toNat := by omega
          simp [charListLe, hxz]
        · have hxz : x.toNat < z.toNat := by omega
          simp [charListLe, hxz]
        · have hxz : x.toNat < z.toNat := by omega
          simp [charListLe, hxz]
        · have hxz : ¬ x.toNat < z.toNat := by omega
          have hzx : ¬ z.toNat < x.toNat := by omega
          simpa [charListLe, hxz, hzx] using ih h1c h2c

/-- The filename comparison used by `sortByFilename`. -/
def fileLe (a b : IconInfo) : Prop := strLe a.filename b.filename = true

instance : DecidableRel fileLe := fun _ _ => instDecidableEqBool _ _

instance : IsTotal IconInfo fileLe :=
  ⟨fun a b => charListLe_total a.filename.data b.filename.data⟩

instance : IsTrans IconInfo fileLe :=
  ⟨fun _ _ _ hab hbc => charListLe_trans hab hbc⟩

/-- Sorting by filename, modelling
`duplicateIcons.sort((a, b) => a.filename.localeCompare(b.filename))`
(stable, as required of `Array.prototype.sort` since ES2019). -/
def sortByFilename (l : List IconInfo) : List IconInfo :=
  List.insertionSort fileLe l

/-- Body of the `hashGroups.forEach` loop of `findExactDuplicates`
(`src/core/duplicate-detector.ts` lines 29-62) for one hash key: a hash
with ≥ 2 icons yields one group whose master is the filename-least icon,
with similarity 1.0. -/
def exactGroupFor (icons : List IconInfo) (h : String) : Option DuplicateGroup :=
  let duplicateIcons := icons.filter (fun i => i.hash == h)
  if duplicateIcons.length > 1 then
    match sortByFilename duplicateIcons with
    | [] => none   -- mirrors the source guard `if (!master) return;`
    | master :: duplicates =>
      some ⟨master, duplicates, JSNum.num (Frac.ofInt 1),
        generateRecommendation (JSNum.num (Frac.ofInt 1))⟩
  else none

def findExactDuplicates (icons : List IconInfo) : List DuplicateGroup :=
  (hashKeys icons).filterMap (exactGroupFor icons)

/-- Inner loop of `findSimilarDuplicates` (lines 76-94): scan the icons
after `icon1`, skipping processed ids and equal hashes, collecting every
icon whose similarity reaches `threshold` and marking it processed. -/
def similarInner (threshold : Frac) (icon1 : IconInfo) :
    List IconInfo → List String → List IconInfo × List String
  | [], processed => ([], processed)
  | icon2 :: rest, processed =>
    if icon2.id ∈ processed then similarInner threshold icon1 rest processed
    else if icon1.hash = icon2.hash then similarInner threshold icon1 rest processed
    else if (CryptoUtils.calculateSimilarity icon1.hash icon2.hash).geQ threshold then
      let step := similarInner threshold icon1 rest (icon2.id :: processed)
      (icon2 :: step.1, step.2)
    else similarInner threshold icon1 rest processed

/-- Outer loop of `findSimilarDuplicates` (lines 64-117): each unprocessed
icon leads a scan of the icons after it; a non-empty collection becomes a
group with the minimum similarity. -/
def similarOuter (threshold : Frac) : List IconInfo → List String → List DuplicateGroup
  | [], _ => []
  | icon1 :: rest, processed =>
    if icon1.id ∈ processed then similarOuter threshold rest processed
    else
      let scan := similarInner threshold icon1 rest processed
      if scan.1.isEmpty then similarOuter threshold rest scan.2
      else
        let similarities := scan.1.map
          (fun ic => CryptoUtils.calculateSimilarity icon1.hash ic.hash)
        let minSimilarity := JSNum.minList similarities
        ⟨icon1, scan.1, minSimilarity, generateRecommendation minSimilarity⟩
          :: similarOuter threshold rest (icon1.id :: scan.2)

/-- `findSimilarDuplicates(icons, processed)` as called by
`findDuplicates`. -/
def findSimilarDuplicates (threshold : Frac) (icons : List IconInfo)
    (processed : List String) : List DuplicateGroup :=
  similarOuter threshold icons processed

/-- `findDuplicates` (lines 14-27).  Note the source creates
`const processed = new Set()` and passes it to the near pass, but the
exact pass never inserts into it, so the near pass starts from the empty
set. -/
def findDuplicates (threshold : Frac) (icons : List IconInfo) : List DuplicateGroup :=
  findExactDuplicates icons ++ findSimilarDuplicates threshold icons []

end DuplicateDetector



namespace DuplicateDetector

theorem mem_hashKeysAux {h : String} : ∀ {icons : List IconInfo} {seen : List String},
    h ∈ hashKeysAux icons seen ↔ (h ∉ seen ∧ ∃ i ∈ icons, i.hash = h)
  | [], seen => by simp [hashKeysAux]
  | i :: rest, seen => by
    by_cases hmem : i.hash ∈ seen
    · rw [hashKeysAux, if_pos hmem, mem_hashKeysAux]
      constructor
      · rintro ⟨hns, j, hj, hjh⟩
        exact ⟨hns, j, List.mem_cons_of_mem _ hj, hjh⟩
      · rintro ⟨hns, j, hj, hjh⟩
        rcases List.mem_cons.mp hj with rfl | hj2
        · exact absurd (hjh ▸ hmem) hns
        · exact ⟨hns, j, hj2, hjh⟩
    · rw [hashKeysAux, if_neg hmem]
      rw [List.mem_cons, mem_hashKeysAux]
      constructor
      · rintro (rfl | ⟨hns, j, hj, hjh⟩)
        · exact ⟨hmem, i, List.mem_cons_self _ _, rfl⟩
        · refine ⟨fun hs => hns (List.mem_cons_of_mem _ hs), j, List.mem_cons_of_mem _ hj, hjh⟩
      · rintro ⟨hns, j, hj, hjh⟩
        rcases List.mem_cons.mp hj with rfl | hj2
        · exact Or.inl hjh.symm
        · by_cases hih : h = i.hash
          · exact Or.inl hih
          · exact Or.inr ⟨by
              intro hc
              rcases List.mem_cons.mp hc with hc1 | hc2
              · exact hih hc1
              · exact hns hc2, j, hj2, hjh⟩

theorem mem_hashKeys {h : String} {icons : List IconInfo} :
    h ∈ hashKeys icons ↔ ∃ i ∈ icons, i.hash = h := by
  rw [hashKeys, mem_hashKeysAux]
  simp

theorem exactGroupFor_eq_some {icons : List IconInfo} {h : String} {g : DuplicateGroup}
    (hg : exactGroupFor icons h = some g) :
    g.master.hash = h ∧ g.similarity = JSNum.num (Frac.ofInt 1) ∧
    g.recommendation = .remove ∧
    (g.master :: g.duplicates).Perm (icons.filter (fun i => i.hash == h)) ∧
    (∀ d ∈ g.duplicates, fileLe g.master d) ∧
    1 < (icons.filter (fun i => i.hash == h)).length := by
  rw [exactGroupFor] at hg
  set dup := icons.filter (fun i => i.hash == h) with hdup
  by_cases hlen : dup.length > 1
  · rw [if_pos hlen] at hg
    have hperm : (sortByFilename dup).Perm dup := List.perm_insertionSort fileLe dup
    have hsorted : List.Sorted fileLe (sortByFilename dup) :=
      List.sorted_insertionSort fileLe dup
    rcases hs : sortByFilename dup with _ | ⟨master, duplicates⟩
    · rw [hs] at hg; exact absurd hg (by simp)
    · rw [hs] at hg hperm hsorted
      cases hg
      refine ⟨?_, rfl, rfl, hperm, ?_, hlen⟩
      · have hm : master ∈ dup := hperm.mem_iff.mp (List.mem_cons_self _ _)
        rw [hdup] at hm
        exact beq_iff_eq.mp (List.mem_filter.mp hm).2
      · exact fun d hd => List.rel_of_sorted_cons hsorted d hd
  · rw [if_neg hlen] at hg
    exact absurd hg (by simp)

theorem exactGroupFor_isSome {icons : List IconInfo} {h : String}
    (hlen : 1 < (icons.filter (fun i => i.hash == h)).length) :
    ∃ g, exactGroupFor icons h = some g := by
  rw [exactGroupFor]
  set dup := icons.filter (fun i => i.hash == h) with hdup
  rw [if_pos hlen]
  have hperm : (sortByFilename dup).Perm dup := List.perm_insertionSort fileLe dup
  rcases hs : sortByFilename dup with _ | ⟨master, duplicates⟩
  · exfalso
    have hl := hperm.length_eq
    rw [hs] at hl
    simp at hl
    omega
  · exact ⟨_, rfl⟩

end DuplicateDetector

namespace DuplicateDetector

theorem similarInner_fst_sublist (threshold : Frac) (icon1 : IconInfo) :
    ∀ (l : List IconInfo) (processed : List String),
      (similarInner threshold icon1 l processed).1.Sublist l
  | [], _ => List.Sublist.refl _
  | icon2 :: rest, processed => by
    rw [similarInner]
    split
    · exact (similarInner_fst_sublist threshold icon1 rest processed).cons icon2
    · split
      · exact (similarInner_fst_sublist threshold icon1 rest processed).cons icon2
      · split
        · exact (similarInner_fst_sublist threshold icon1 rest _).cons₂ icon2
        · exact (similarInner_fst_sublist threshold icon1 rest processed).cons icon2

theorem similarInner_of_geQ_false {threshold : Frac} {icon1 : IconInfo}
    (hfalse : ∀ h2, (CryptoUtils.calculateSimilarity icon1.hash h2).geQ threshold = false) :
    ∀ (l : List IconInfo) (processed : List String),
      similarInner threshold icon1 l processed = ([], processed)
  | [], _ => rfl
  | icon2 :: rest, processed => by
    rw [similarInner]
    split
    · exact similarInner_of_geQ_false hfalse rest processed
    · split
      · exact similarInner_of_geQ_false hfalse rest processed
      · rw [if_neg (by rw [hfalse icon2.hash]; exact Bool.false_ne_true)]
        exact similarInner_of_geQ_false hfalse rest processed

/-- Every group produced by the near pass has a non-empty duplicates list
and, when the input ids are pairwise distinct, a master that is not among
its own duplicates. -/
theorem similarOuter_groups (threshold : Frac) :
    ∀ (l : List IconInfo) (processed : List String),
      (l.map (fun i => i.id)).Nodup →
      ∀ g ∈ similarOuter threshold l processed,
        g.duplicates ≠ [] ∧ g.master.id ∉ g.duplicates.map (fun d => d.id)
  | [], _, _, g, hg => absurd hg (by simp [similarOuter])
  | icon1 :: rest, processed, hnd, g, hg => by
    rw [List.map_cons, List.nodup_cons] at hnd
    simp only [similarOuter] at hg
    split at hg
    · exact similarOuter_groups threshold rest processed hnd.2 g hg
    · split at hg
      · exact similarOuter_groups threshold rest _ hnd.2 g hg
      · rcases List.mem_cons.mp hg with rfl | hg2
        · constructor
          · intro hemp
            simp_all
          · intro hmem
            have hsub : (similarInner threshold icon1 rest processed).1.Sublist rest :=
              similarInner_fst_sublist threshold icon1 rest processed
            have : icon1.id ∈ rest.map (fun i => i.id) :=
              (hsub.map (fun i => i.id)).mem hmem
            exact hnd.1 this
        · exact similarOuter_groups threshold rest _ hnd.2 g hg2

theorem countMismatch_pos :
    ∀ {a b : List Char}, a.length = b.length → a ≠ b → 0 < CryptoUtils.countMismatch a b
  | [], [], _, hne => absurd rfl hne
  | [], _ :: _, hlen, _ => by simp at hlen
  | _ :: _, [], hlen, _ => by simp at hlen
  | x :: as, y :: bs, hlen, hne => by
    rw [CryptoUtils.countMismatch]
    by_cases hxy : x = y
    · subst hxy
      have : as ≠ bs := fun h => hne (h ▸ rfl)
      have := countMismatch_pos (by simpa using hlen) this
      omega
    · simp [hxy]

theorem geQ_101_false (h1 h2 : String) :
    (CryptoUtils.calculateSimilarity h1 h2).geQ ⟨101, 100⟩ = false := by
  rw [CryptoUtils.calculateSimilarity]
  split
  · rfl
  · rename_i hlen
    rw [JSNum.geQ, Frac.le]
    rw [decide_eq_false_iff_not]
    intro hcontra
    simp only [Frac.sub, Frac.divByNat, Frac.ofInt, Frac.mul] at hcontra
    have hpos : 0 < h1.data.length := Nat.pos_of_ne_zero hlen
    set L := h1.data.length
    set D := CryptoUtils.countMismatch h1.data h2.data
    have : (101 : Int) * (1 * (1 * L)) ≤ (1 * (1 * L) - D * 1) * 100 := hcontra
    have hD : (0 : Int) ≤ (D : Int) := Int.natCast_nonneg D
    have hL : (1 : Int) ≤ (L : Int) := by exact_mod_cast hpos
    nlinarith

theorem similarOuter_101_nil :
    ∀ (l : List IconInfo) (processed : List String),
      similarOuter ⟨101, 100⟩ l processed = []
  | [], _ => rfl
  | icon1 :: rest, processed => by
    simp only [similarOuter]
    split
    · exact similarOuter_101_nil rest processed
    · rw [similarInner_of_geQ_false (fun h2 => geQ_101_false icon1.hash h2) rest processed]
      simp only [List.isEmpty_nil, if_true]
      exact similarOuter_101_nil rest processed

end DuplicateDetector

/-! Concrete icons used by the duplicate-detector claims. -/

def nearA : IconInfo := ⟨"id-a", "a.svg", "./a.svg", "ca", 2, "aaaaa"⟩

def nearB : IconInfo := ⟨"id-b", "b.svg", "./b.svg", "ca", 2, "aaaaa"⟩

def nearC : IconInfo := ⟨"id-c", "c.svg", "./c.svg", "cc", 2, "aaaab"⟩

/-- Claim C4 — the near pass of `findDuplicates` is claimed to consider
only items not already placed in an exact-duplicate group.  The code
violates this: `processed` is never filled by the exact pass, so with
icons a, b sharing hash "aaaaa" and c at hash "aaaab" (similarity 4/5 =
the default 0.8 threshold), the exact master a reappears as the master of
a near-pass group containing c. -/
theorem claim_C4_exact_items_reenter_near_pass :
    DuplicateDetector.findDuplicates ⟨4, 5⟩ [nearA, nearB, nearC] =
      [⟨nearA, [nearB], JSNum.num (Frac.ofInt 1), .remove⟩,
       ⟨nearA, [nearC], JSNum.num ⟨4, 5⟩, .review⟩] ∧
    (∃ g ∈ DuplicateDetector.findExactDuplicates [nearA, nearB, nearC],
      g.master = nearA) ∧
    (∃ g ∈ DuplicateDetector.findSimilarDuplicates ⟨4, 5⟩ [nearA, nearB, nearC] [],
      g.master = nearA) := by decide

/-- Claim C5 — the exact pass groups items by digest: every hash shared by
at least two icons yields exactly one group, with similarity 1.0,
recommendation remove, master/duplicates a permutation of the icons at
that hash, and the lexicographically least filename as master. -/
theorem claim_C5_exact_pass (icons : List IconInfo) (h : String)
    (hlen : 1 < (icons.filter (fun i => i.hash == h)).length) :
    ∃ g, g ∈ DuplicateDetector.findExactDuplicates icons ∧
      (∀ threshold, g ∈ DuplicateDetector.findDuplicates threshold icons) ∧
      g.master.hash = h ∧
      g.similarity = JSNum.num (Frac.ofInt 1) ∧
      g.recommendation = .remove ∧
      (g.master :: g.duplicates).Perm (icons.filter (fun i => i.hash == h)) ∧
      (∀ d ∈ g.duplicates, strLe g.master.filename d.filename = true) ∧
      (∀ g2 ∈ DuplicateDetector.findExactDuplicates icons, g2.master.hash = h → g2 = g) := by
  obtain ⟨g, hgf⟩ := DuplicateDetector.exactGroupFor_isSome hlen
  have hkey : h ∈ DuplicateDetector.hashKeys icons := by
    rw [DuplicateDetector.mem_hashKeys]
    have hpos : 0 < (icons.filter (fun i => i.hash == h)).length := by omega
    obtain ⟨i, hi⟩ := List.exists_mem_of_length_pos hpos
    exact ⟨i, (List.mem_filter.mp hi).1, beq_iff_eq.mp (List.mem_filter.mp hi).2⟩
  have hmem : g ∈ DuplicateDetector.findExactDuplicates icons :=
    List.mem_filterMap.mpr ⟨h, hkey, hgf⟩
  obtain ⟨h1, h2, h3, h4, h5, _⟩ := DuplicateDetector.exactGroupFor_eq_some hgf
  refine ⟨g, hmem, ?_, h1, h2, h3, h4, h5, ?_⟩
  · intro threshold
    rw [DuplicateDetector.findDuplicates]
    exact List.mem_append_left _ hmem
  · intro g2 hg2 hg2h
    obtain ⟨h2k, hk2, hf2⟩ := List.mem_filterMap.mp hg2
    have : g2.master.hash = h2k := (DuplicateDetector.exactGroupFor_eq_some hf2).1
    rw [hg2h] at this
    rw [← this] at hf2
    rw [hgf] at hf2
    exact (Option.some.injEq _ _).mp hf2.symm

/-- Witness for C5 at two byte-identical files. -/
theorem claim_C5_witness :
    (1 < (([nearA, nearB, nearC].filter (fun i => i.hash == "aaaaa"))).length) ∧
    (∃ g, g ∈ DuplicateDetector.findExactDuplicates [nearA, nearB, nearC] ∧
      (∀ threshold, g ∈ DuplicateDetector.findDuplicates threshold [nearA, nearB, nearC]) ∧
      g.master.hash = "aaaaa" ∧
      g.similarity = JSNum.num (Frac.ofInt 1) ∧
      g.recommendation = .remove ∧
      (g.master :: g.duplicates).Perm
        ([nearA, nearB, nearC].filter (fun i => i.hash == "aaaaa")) ∧
      (∀ d ∈ g.duplicates, strLe g.master.filename d.filename = true) ∧
      (∀ g2 ∈ DuplicateDetector.findExactDuplicates [nearA, nearB, nearC],
        g2.master.hash = "aaaaa" → g2 = g)) :=
  ⟨by decide, claim_C5_exact_pass [nearA, nearB, nearC] "aaaaa" (by decide)⟩

/-- Claim C8 — with the similarity threshold set to 1.01 the near pass
contributes nothing: `findDuplicates` returns exactly the exact-match
groups, because the hash-position similarity of two distinct digests never
reaches 1.01, and for distinct equal-length 64-character digests it is at
most 63/64. -/
theorem claim_C8_threshold_above_one :
    (∀ icons, DuplicateDetector.findDuplicates ⟨101, 100⟩ icons =
      DuplicateDetector.findExactDuplicates icons) ∧
    (∀ h1 h2 : String, h1.length = 64 → h2.length = 64 → h1 ≠ h2 →
      ∃ f, CryptoUtils.calculateSimilarity h1 h2 = JSNum.num f ∧ f.val ≤ 63/64) := by
  constructor
  · intro icons
    rw [DuplicateDetector.findDuplicates, DuplicateDetector.findSimilarDuplicates,
      DuplicateDetector.similarOuter_101_nil, List.append_nil]
  · intro h1 h2 hl1 hl2 hne
    have hl1d : h1.data.length = 64 := hl1
    have hl2d : h2.data.length = 64 := hl2
    have hdne : h1.data ≠ h2.data := by
      intro hd
      apply hne
      cases h1
      cases h2
      exact congrArg String.mk hd
    have hD : 0 < CryptoUtils.countMismatch h1.data h2.data :=
      DuplicateDetector.countMismatch_pos (by omega) hdne
    have hD2 : (1 : ℚ) ≤ (CryptoUtils.countMismatch h1.data h2.data : ℚ) := by
      exact_mod_cast hD
    rw [CryptoUtils.calculateSimilarity, if_neg (by omega)]
    refine ⟨_, rfl, ?_⟩
    rw [Frac.val]
    simp only [Frac.sub, Frac.divByNat, Frac.ofInt, Frac.mul, one_mul, mul_one]
    rw [hl1d]
    rw [div_le_div_iff₀ (by norm_num) (by norm_num)]
    push_cast
    nlinarith [hD2]

/-- Witness for C8 at a concrete icon list and a concrete pair of
distinct 64-character digests. -/
theorem claim_C8_witness :
    (DuplicateDetector.findDuplicates ⟨101, 100⟩ [nearA, nearB, nearC] =
      DuplicateDetector.findExactDuplicates [nearA, nearB, nearC]) ∧
    (∃ f, CryptoUtils.calculateSimilarity
        "aaaaaaaaaaaaaaaaaaaaaaaaaaaaaaaaaaaaaaaaaaaaaaaaaaaaaaaaaaaaaaaa"
        "baaaaaaaaaaaaaaaaaaaaaaaaaaaaaaaaaaaaaaaaaaaaaaaaaaaaaaaaaaaaaaa" = JSNum.num f ∧
      f.val ≤ 63/64) :=
  ⟨claim_C8_threshold_above_one.1 [nearA, nearB, nearC],
   claim_C8_threshold_above_one.2 _ _ (by decide) (by decide) (by decide)⟩

/-! Two icons with the same id: the same file name and byte content in two
different directories (`generateIconId` derives the id from name and
content only). -/

def dupX : IconInfo := ⟨"same-id", "a.svg", "dir1/a.svg", "c", 1, "hh"⟩

def dupY : IconInfo := ⟨"same-id", "a.svg", "dir2/a.svg", "c", 1, "hh"⟩

/-- Counterexample to claim C10 as stated: with two same-id items (same
name and content in two directories) the exact group's master carries the
same id as its only duplicate. -/
theorem claim_C10_counterexample :
    ∃ g ∈ DuplicateDetector.findDuplicates ⟨4, 5⟩ [dupX, dupY],
      g.duplicates ≠ [] ∧ g.master.id ∈ g.duplicates.map (fun d => d.id) := by decide

/-- Claim C10 (amended) — provided the input items have pairwise distinct
ids, every group returned by `findDuplicates` (exact or near pass) has a
non-empty duplicates list and a master that does not occur by id among its
own duplicates; the non-emptiness holds unconditionally. -/
theorem claim_C10_amended (threshold : Frac) (icons : List IconInfo)
    (hids : (icons.map (fun i => i.id)).Nodup) :
    ∀ g ∈ DuplicateDetector.findDuplicates threshold icons,
      g.duplicates ≠ [] ∧ g.master.id ∉ g.duplicates.map (fun d => d.id) := by
  intro g hg
  rw [DuplicateDetector.findDuplicates] at hg
  rcases List.mem_append.mp hg with hg | hg
  · obtain ⟨h, hk, hf⟩ := List.mem_filterMap.mp hg
    obtain ⟨_, _, _, hperm, _, hlen⟩ := DuplicateDetector.exactGroupFor_eq_some hf
    constructor
    · intro hemp
      have hle := hperm.length_eq
      rw [hemp] at hle
      simp at hle
      omega
    · have hsubf : (icons.filter (fun i => i.hash == h)).Sublist icons :=
        List.filter_sublist icons
      have hnf : ((icons.filter (fun i => i.hash == h)).map (fun i => i.id)).Nodup :=
        List.Nodup.sublist (hsubf.map (fun i => i.id)) hids
      have hnd : ((g.master :: g.duplicates).map (fun i => i.id)).Nodup :=
        (hperm.map (fun i => i.id)).nodup_iff.mpr hnf
      rw [List.map_cons, List.nodup_cons] at hnd
      exact hnd.1
  · exact DuplicateDetector.similarOuter_groups threshold icons [] hids g hg

/-- Witness for the amended C10 on a list producing both a non-trivial
near group and distinct ids. -/
theorem claim_C10_witness :
    (([nearA, nearC].map (fun i => i.id)).Nodup) ∧
    ∀ g ∈ DuplicateDetector.findDuplicates ⟨4, 5⟩ [nearA, nearC],
      g.duplicates ≠ [] ∧ g.master.id ∉ g.duplicates.map (fun d => d.id) :=
  ⟨by decide, claim_C10_amended ⟨4, 5⟩ [nearA, nearC] (by decide)⟩

/-! JS string primitives shared by the metadata codec and the response
parser. -/

namespace JSStr

/-- The whitespace class of JS `trim` / regex `\s`, restricted to its
ASCII members (the Unicode spaces never occur in the inputs considered
here). -/
def isJsWhitespace (c : Char) : Bool :=
  c = ' ' || c = '\t' || c = '\n' || c = '\r' || c = '\x0b' || c = '\x0c'

/-- `String.prototype.trim`. -/
def trimChars (l : List Char) : List Char :=
  ((l.dropWhile isJsWhitespace).reverse.dropWhile isJsWhitespace).reverse

/-- Whether `pat` is a prefix of `l`. -/
def listStartsWith : List Char → List Char → Bool
  | [], _ => true
  | _ :: _, [] => false
  | p :: ps, c :: cs => p = c && listStartsWith ps cs

/-- First index at which `pat` occurs (JS `indexOf`). -/
def findSubIdx (pat : List Char) : List Char → Option Nat
  | [] => if pat.isEmpty then some 0 else none
  | c :: cs =>
    if listStartsWith pat (c :: cs) then some 0
    else (findSubIdx pat cs).map (· + 1)

/-- Last index at which `pat` occurs (JS `lastIndexOf`). -/
def lastSubIdx (pat : List Char) : List Char → Option Nat
  | [] => if pat.isEmpty then some 0 else none
  | c :: cs =>
    match lastSubIdx pat cs with
    | some j => some (j + 1)
    | none => if listStartsWith pat (c :: cs) then some 0 else none

/-- `String.prototype.split` on a single separator character, keeping
empty pieces, as JS does. -/
def splitOnChar (sep : Char) : List Char → List (List Char)
  | [] => [[]]
  | c :: cs =>
    if c = sep then [] :: splitOnChar sep cs
    else
      match splitOnChar sep cs with
      | [] => [[c]]
      | p :: ps => (c :: p) :: ps

def isDigit (c : Char) : Bool := 48 ≤ c.toNat && c.toNat ≤ 57

def digitsToNat (l : List Char) : Nat := l.foldl (fun acc c => 10 * acc + (c.toNat - 48)) 0

/-- ASCII lower-casing (model of `toLowerCase` for the inputs considered
here, none of which contains non-ASCII cased letters). -/
def asciiLowerChar (c : Char) : Char :=
  if 65 ≤ c.toNat && c.toNat ≤ 90 then Char.ofNat (c.toNat + 32) else c

def lowerList (l : List Char) : List Char := l.map asciiLowerChar

/-- JS `parseFloat`: skip leading whitespace, optional sign, then the
longest `digits [. digits]` prefix; NaN when that prefix has no digit.
Exponent suffixes are not modelled — no input considered in this
development carries one (the parser below only applies it to captures of
`[0-9.]+`, and the metadata codec to values it printed itself). -/
def parseFloatQ (l : List Char) : JSNum :=
  let l1 := l.dropWhile isJsWhitespace
  let signAndRest : Int × List Char :=
    match l1 with
    | c :: cs => if c = '-' then (-1, cs) else if c = '+' then (1, cs) else (1, l1)
    | [] => (1, l1)
  let sgn := signAndRest.1
  let l2 := signAndRest.2
  let intDigits := l2.takeWhile isDigit
  let rest2 := l2.dropWhile isDigit
  match rest2 with
  | '.' :: rest3 =>
    let fracDigits := rest3.takeWhile isDigit
    if intDigits.isEmpty && fracDigits.isEmpty then JSNum.nan
    else JSNum.num ⟨sgn * (digitsToNat (intDigits ++ fracDigits) : Int), 10 ^ fracDigits.length⟩
  | _ =>
    if intDigits.isEmpty then JSNum.nan
    else JSNum.num ⟨sgn * (digitsToNat intDigits : Int), 1⟩

/-- `Number.prototype.toFixed(2)` for the non-negative values the pipeline
prints (ECMA-262: the nearest 2-decimal value, ties toward the larger). -/
def toFixed2 (f : Frac) : String :=
  let k : Int := Int.fdiv (200 * f.n + f.d) (2 * f.d)
  let n := k.toNat
  toString (n / 100) ++ "." ++ (if n % 100 < 10 then "0" else "") ++ toString (n % 100)

end JSStr

namespace SVGUtils

/-- A JS `Date` is modelled by its ISO-8601 serialization (the only way
the codec touches dates is `toISOString` at embed time and the `Date`
constructor at extract time). -/
structure JSDate where
  iso : String
deriving DecidableEq, Repr

/-- The metadata record taken by `SVGUtils.embedMetadata`
(`src/utils/svg-utils.ts`, `unnamed/part_005` lines 40-46). -/
structure SVGMetadata where
  category : String
  tags : List String
  confidence : Frac
  processedAt : JSDate
  version : String
deriving DecidableEq, Repr

/-- The `metadataComments` array (lines 47-54). -/
def metadataComments (metadata : SVGMetadata) : List String :=
  ["<!-- Icon Analysis Metadata -->",
   "<!-- Category: " ++ metadata.category ++ " -->",
   "<!-- Tags: " ++ String.intercalate ", " metadata.tags ++ " -->",
   "<!-- Confidence: " ++ JSStr.toFixed2 metadata.confidence ++ " -->",
   "<!-- Processed: " ++ metadata.processedAt.iso ++ " -->",
   "<!-- Version: " ++ metadata.version ++ " -->"]

/-- End position (exclusive) of the first match of `/<svg[^>]*>/`: the
first `"<svg"` followed by the first subsequent `">"`. -/
def svgTagEndIdx (l : List Char) : Option Nat :=
  match JSStr.findSubIdx "<svg".data l with
  | none => none
  | some i =>
    match (l.drop (i + 4)).findIdx? (fun c => c = '>') with
    | none => none
    | some j => some (i + 4 + j + 1)

/-- `SVGUtils.embedMetadata` (lines 40-74).  Note the source builds
`[beforeContent, "\n", ...metadataComments, "\n", afterContent].join("")`:
the `join("")` concatenates the six comment strings with NO separator
between them, so the whole block lands on a single line. -/
def embedMetadata (content : String) (metadata : SVGMetadata) : String :=
  let comments := metadataComments metadata
  match svgTagEndIdx content.data with
  | some insertPosition =>
    String.join ([String.mk (content.data.take insertPosition), "\n"] ++ comments ++
      ["\n", String.mk (content.data.drop insertPosition)])
  | none => String.join (comments ++ ["\n", content])

/-- Greedy capture of `([^\n]+)` followed by `" -->"` starting right after
a marker occurrence: the text up to the LAST `" -->"` of the current line,
provided it is non-empty. -/
def commentCapture (rest : List Char) : Option (List Char) :=
  let line := rest.takeWhile (fun c => c ≠ '\n')
  match JSStr.lastSubIdx " -->".data line with
  | some j => if 1 ≤ j then some (line.take j) else none
  | none => none

/-- Leftmost match of `/<!-- LABEL: ([^\n]+) -->/`: try every occurrence
of the literal marker left to right, returning the first greedy capture
that completes a full match. -/
def matchComment (marker : List Char) : List Char → Option (List Char)
  | [] => none
  | c :: cs =>
    if JSStr.listStartsWith marker (c :: cs) then
      match commentCapture ((c :: cs).drop marker.length) with
      | some cap => some cap
      | none => matchComment marker cs
    else matchComment marker cs

/-- Result of `SVGUtils.extractMetadata`: each field is present only when
its pattern matched.  `processedAt` holds the raw captured string the
source passes to `new Date(...)` (date parsing itself adds nothing to the
claims below). -/
structure PartialMetadata where
  category : Option String
  tags : Option (List String)
  confidence : Option JSNum
  processedAt : Option String
  version : Option String
deriving DecidableEq, Repr

/-- `SVGUtils.extractMetadata` (lines 76-111). -/
def extractMetadata (content : String) : PartialMetadata :=
  let l := content.data
  { category := (matchComment "<!-- Category: ".data l).map
      (fun cap => String.mk (JSStr.trimChars cap))
    tags := (matchComment "<!-- Tags: ".data l).map
      (fun cap => (JSStr.splitOnChar ',' cap).map (fun t => String.mk (JSStr.trimChars t)))
    confidence := (matchComment "<!-- Confidence: ".data l).map
      (fun cap => JSStr.parseFloatQ cap)
    processedAt := (matchComment "<!-- Processed: ".data l).map (fun cap => String.mk cap)
    version := (matchComment "<!-- Version: ".data l).map
      (fun cap => String.mk (JSStr.trimChars cap)) }

end SVGUtils

def c2meta : SVGUtils.SVGMetadata :=
  ⟨"navigation", ["back", "arrow"], ⟨19, 20⟩, ⟨"2024-01-01T00:00:00.000Z"⟩, "1.0.0"⟩

/-- Claim C2 — the metadata round-trip `extract(embed(c, r))` is claimed
to recover every field of `r` exactly (for newline-free tags).  The code
violates this: `embedMetadata` joins the six comment lines with
`join("")`, i.e. with no newline between them, so the line-based patterns
of `extractMetadata` greedily capture up to the LAST `" -->"` of the
single line.  Already the category — newline- and comma-free — comes back
with the rest of the block glued on; the tags list becomes two corrupted
entries instead of `["back", "arrow"]`. -/
theorem claim_C2_roundtrip_broken :
    (SVGUtils.extractMetadata (SVGUtils.embedMetadata "<svg height=24></svg>" c2meta)).category
        = some ("navigation --><!-- Tags: back, arrow --><!-- Confidence: 0.95 " ++
            "--><!-- Processed: 2024-01-01T00:00:00.000Z --><!-- Version: 1.0.0") ∧
    (SVGUtils.extractMetadata (SVGUtils.embedMetadata "<svg height=24></svg>" c2meta)).category
        ≠ some c2meta.category ∧
    (SVGUtils.extractMetadata (SVGUtils.embedMetadata "<svg height=24></svg>" c2meta)).tags
        ≠ some c2meta.tags := by decide

/-! JSON values and `JSON.parse`. -/

/-- A JavaScript value as produced by `JSON.parse`. -/
inductive JSValue where
  | null
  | bool (b : Bool)
  | num (f : Frac)
  | str (s : String)
  | arr (elems : List JSValue)
  | obj (fields : List (String × JSValue))

namespace JSValue

/-- JS truthiness (`undefined` is handled at lookup sites via `Option`). -/
def truthy : JSValue → Bool
  | .null => false
  | .bool b => b
  | .num f => !(f.n == 0)
  | .str s => !s.isEmpty
  | .arr _ => true
  | .obj _ => true

def isStr : JSValue → Bool
  | .str _ => true
  | _ => false

/-- Object-field lookup; for duplicate keys `JSON.parse` keeps the last
occurrence. -/
def lookupLast (k : String) : List (String × JSValue) → Option JSValue
  | [] => none
  | (k1, v) :: rest =>
    match lookupLast k rest with
    | some v2 => some v2
    | none => if k1 = k then some v else none

/-- JS property read `v.k` (`none` is `undefined`; non-objects have no
own properties of interest here). -/
def getField : JSValue → String → Option JSValue
  | .obj fields, k => lookupLast k fields
  | _, _ => none

end JSValue

namespace JSONParse

/-- The JSON whitespace characters. -/
def isJsonWs (c : Char) : Bool := c = ' ' || c = '\t' || c = '\n' || c = '\r'

def skipWs (l : List Char) : List Char := l.dropWhile isJsonWs

/-- String body after the opening quote.  `\uXXXX` escapes are not
modelled (such an input is rejected rather than decoded; no input
considered in this development contains one). -/
def parseStringBody : Nat → List Char → Option (List Char × List Char)
  | 0, _ => none
  | _ + 1, [] => none
  | fuel + 1, c :: cs =>
    if c = '"' then some ([], cs)
    else if c = '\\' then
      match cs with
      | [] => none
      | e :: cs2 =>
        let esc : Option Char :=
          if e = '"' then some '"'
          else if e = '\\' then some '\\'
          else if e = '/' then some '/'
          else if e = 'n' then some '\n'
          else if e = 't' then some '\t'
          else if e = 'r' then some '\r'
          else if e = 'b' then some '\x08'
          else if e = 'f' then some '\x0c'
          else none
        match esc with
        | some ch => (parseStringBody fuel cs2).map (fun p => (ch :: p.1, p.2))
        | none => none
    else (parseStringBody fuel cs).map (fun p => (c :: p.1, p.2))

/-- JSON number at the head of the input (digits, optional fraction and
exponent; the no-leading-zero restriction of the JSON grammar is not
enforced — it can only make this model accept strictly more). -/
def parseNumber (l : List Char) : Option (Frac × List Char) :=
  let sgnRest : Int × List Char :=
    match l with
    | c :: cs => if c = '-' then (-1, cs) else (1, l)
    | [] => (1, l)
  let sgn := sgnRest.1
  let l1 := sgnRest.2
  let intDigits := l1.takeWhile JSStr.isDigit
  if intDigits.isEmpty then none
  else
    let l2 := l1.dropWhile JSStr.isDigit
    let fracAndRest : List Char × List Char :=
      match l2 with
      | '.' :: l3 =>
        let fd := l3.takeWhile JSStr.isDigit
        (fd, l3.dropWhile JSStr.isDigit)
      | _ => ([], l2)
    let fracDigits := fracAndRest.1
    let l4 := fracAndRest.2
    if l2 ≠ l4 ∧ fracDigits.isEmpty then none
    else
      let mantissa : Frac :=
        ⟨sgn * (JSStr.digitsToNat (intDigits ++ fracDigits) : Int), 10 ^ fracDigits.length⟩
      match l4 with
      | e :: l5 =>
        if e = 'e' ∨ e = 'E' then
          let expSgnRest : Int × List Char :=
            match l5 with
            | d :: ds => if d = '-' then (-1, ds) else if d = '+' then (1, ds) else (1, l5)
            | [] => (1, l5)
          let expDigits := expSgnRest.2.takeWhile JSStr.isDigit
          if expDigits.isEmpty then none
          else
            let ev : Int := expSgnRest.1 * (JSStr.digitsToNat expDigits : Int)
            let scaled : Frac :=
              if 0 ≤ ev then ⟨mantissa.n * 10 ^ ev.toNat, mantissa.d⟩
              else ⟨mantissa.n, mantissa.d * 10 ^ (-ev).toNat⟩
            some (scaled, expSgnRest.2.dropWhile JSStr.isDigit)
        else some (mantissa, l4)
      | [] => some (mantissa, l4)

/-- Mode tag for the single-recursion JSON parser: a value, the members
of an object after its opening brace, or the elements of an array after
its opening bracket. -/
inductive PMode where
  | value
  | members
  | elems

/-- String body with its own fuel (the body is no longer than the
input). -/
def parseString (l : List Char) : Option (List Char × List Char) :=
  parseStringBody (l.length + 1) l

/-- The JSON grammar, structurally recursive on fuel so that it reduces
inside the kernel. -/
def parseAny : Nat → PMode → List Char → Option (JSValue × List Char)
  | 0, _, _ => none
  | fuel + 1, PMode.value, l =>
    (match skipWs l with
    | [] => none
    | c :: cs =>
      if c = '"' then
        (parseString cs).map (fun p => (JSValue.str (String.mk p.1), p.2))
      else if c = Char.ofNat 123 then parseAny fuel PMode.members cs
      else if c = '[' then parseAny fuel PMode.elems cs
      else if JSStr.listStartsWith "true".data (c :: cs) then
        some (JSValue.bool true, (c :: cs).drop 4)
      else if JSStr.listStartsWith "false".data (c :: cs) then
        some (JSValue.bool false, (c :: cs).drop 5)
      else if JSStr.listStartsWith "null".data (c :: cs) then
        some (JSValue.null, (c :: cs).drop 4)
      else
        (parseNumber (c :: cs)).map (fun p => (JSValue.num p.1, p.2)))
  | fuel + 1, PMode.members, l =>
    (match skipWs l with
    | [] => none
    | c :: cs =>
      if c = Char.ofNat 125 then some (JSValue.obj [], cs)
      else if c = '"' then
        match parseString cs with
        | none => none
        | some (key, r1) =>
          match skipWs r1 with
          | ':' :: r2 =>
            match parseAny fuel PMode.value r2 with
            | none => none
            | some (v, r3) =>
              match skipWs r3 with
              | ',' :: r4 =>
                match parseAny fuel PMode.members r4 with
                | some (JSValue.obj fields, r5) =>
                  some (JSValue.obj ((String.mk key, v) :: fields), r5)
                | _ => none
              | d :: r4 =>
                if d = Char.ofNat 125 then
                  some (JSValue.obj [(String.mk key, v)], r4)
                else none
              | [] => none
          | _ => none
      else none)
  | fuel + 1, PMode.elems, l =>
    (match skipWs l with
    | [] => none
    | c :: cs =>
      if c = ']' then some (JSValue.arr [], cs)
      else
        match parseAny fuel PMode.value (c :: cs) with
        | none => none
        | some (v, r1) =>
          match skipWs r1 with
          | ',' :: r2 =>
            match parseAny fuel PMode.elems r2 with
            | some (JSValue.arr elems, r3) => some (JSValue.arr (v :: elems), r3)
            | _ => none
          | ']' :: r2 => some (JSValue.arr [v], r2)
          | _ => none)

/-- `JSON.parse`: one value, then only trailing whitespace. -/
def jsonParseJS (s : String) : Option JSValue :=
  match parseAny (2 * s.data.length + 4) PMode.value s.data with
  | some (v, rest) => if (skipWs rest).isEmpty then some v else none
  | none => none

end JSONParse

namespace OllamaEngine

/-- The runtime shape of the value `parseAIResponse` /
`extractStructuredData` actually return (`AIResponse` of
`src/types/index.ts` declares `category: string` etc., but the untyped
`parsed.category || ...` keeps whatever JSON value was present, so the
faithful field types are JS values). -/
structure AIResponse where
  category : JSValue
  tags : List JSValue
  confidence : JSNum
  reasoning : JSValue

/-- Case-insensitive prefix test (ASCII case folding, as used by the
`i`-flagged regexes of the source on their ASCII patterns). -/
def ciStartsWith : List Char → List Char → Bool
  | [], _ => true
  | _ :: _, [] => false
  | p :: ps, c :: cs =>
    JSStr.asciiLowerChar p = JSStr.asciiLowerChar c && ciStartsWith ps cs

/-- `String.prototype.includes`. -/
def containsSub (pat l : List Char) : Bool := (JSStr.findSubIdx pat l).isSome

/-- Global replace of a (case-insensitive) literal pattern followed by a
greedy `\s*` run with the empty string, e.g. `/```json\s*/gi`. -/
def removePatWs (pat : List Char) : Nat → List Char → List Char
  | _, [] => []
  | 0, l => l
  | fuel + 1, c :: cs =>
    if ciStartsWith pat (c :: cs) then
      removePatWs pat fuel (((c :: cs).drop pat.length).dropWhile JSStr.isJsWhitespace)
    else c :: removePatWs pat fuel cs

/-- `/^json\s*/gi`: without the `m` flag `^` only matches at position 0,
so at most one removal happens. -/
def stripLeadingJsonWs (l : List Char) : List Char :=
  if ciStartsWith "json".data l then (l.drop 4).dropWhile JSStr.isJsWhitespace else l

def openBrace : Char := Char.ofNat 123

def closeBrace : Char := Char.ofNat 125

def notBrace (c : Char) : Bool := !(c = openBrace) && !(c = closeBrace)

/-- Scanner for the tail of `/\x7b[^\x7b\x7d]*(?:\x7b[^\x7b\x7d]*\x7d[^\x7b\x7d]*)*\x7d/`
after the opening brace: greedily consume non-brace runs and complete
depth-one sub-blocks, then the closing brace; returns the number of
characters consumed.  (The regex is deterministic here: a failed inner
block cannot be saved by backtracking, since every shorter attempt would
still face a non-`\x7d` character.) -/
def braceTail : Nat → List Char → Option Nat
  | 0, _ => none
  | fuel + 1, l =>
    let x := l.takeWhile notBrace
    match l.drop x.length with
    | [] => none
    | c :: cs =>
      if c = closeBrace then some (x.length + 1)
      else
        let y := cs.takeWhile notBrace
        match cs.drop y.length with
        | d :: ds =>
          if d = closeBrace then
            (braceTail fuel ds).map (fun k => x.length + 1 + y.length + 1 + k)
          else none
        | [] => none

/-- All-matches scan of the brace regex (the `g` flag), returning the
LAST match, as `jsonMatches[jsonMatches.length - 1]` does. -/
def lastBraceMatch : Nat → List Char → Option (List Char)
  | 0, _ => none
  | _ + 1, [] => none
  | fuel + 1, c :: cs =>
    if c = openBrace then
      match braceTail (cs.length + 1) cs with
      | some k =>
        (match lastBraceMatch fuel (cs.drop k) with
        | some m2 => some m2
        | none => some (c :: cs.take k))
      | none => lastBraceMatch fuel cs
    else lastBraceMatch fuel cs

/-- The whole cleaning pipeline of `parseAIResponse`
(`src/core/ollama-engine.ts` lines 253-273): trim, strip markdown
fences, strip a leading `json`, trim, cut before the first `\x7b` and
after the last `\x7d`. -/
def cleanedContent (content : String) : List Char :=
  let l0 := JSStr.trimChars content.data
  let l1 := removePatWs "```json".data (l0.length + 1) l0
  let l2 := removePatWs "```".data (l1.length + 1) l1
  let l3 := stripLeadingJsonWs l2
  let l4 := JSStr.trimChars l3
  let l5 :=
    match JSStr.findSubIdx [openBrace] l4 with
    | some i => if 0 < i then l4.drop i else l4
    | none => l4
  match JSStr.lastSubIdx [closeBrace] l5 with
  | some j => if j + 1 < l5.length then l5.take (j + 1) else l5
  | none => l5

/-- Letters allowed by the category capture `([a-zA-Z_-]+)`. -/
def isCatLetter (c : Char) : Bool :=
  (65 ≤ c.toNat && c.toNat ≤ 90) || (97 ≤ c.toNat && c.toNat ≤ 122) || c = '_' || c = '-'

/-- `\s*[:：]\s*` followed by a non-empty greedy capture of characters
satisfying `pred`. -/
def afterColonCapture (pred : Char → Bool) (l : List Char) : Option (List Char) :=
  match l.dropWhile JSStr.isJsWhitespace with
  | c :: cs =>
    if c = ':' || c = '：' then
      let cap := (cs.dropWhile JSStr.isJsWhitespace).takeWhile pred
      if cap.isEmpty then none else some cap
    else none
  | [] => none

/-- Leftmost match of `/category[s]?\s*[:：]\s*([a-zA-Z_-]+)/i` on a
line.  (The greedy `[s]?` needs no backtracking: when the optional `s` is
present but the colon part fails, starting at the `s` itself fails
too.) -/
def findCategoryCapture : List Char → Option (List Char)
  | [] => none
  | c :: cs =>
    (if ciStartsWith "category".data (c :: cs) then
      let after := (c :: cs).drop 8
      let afterS :=
        match after with
        | d :: ds => if d = 's' || d = 'S' then ds else after
        | [] => after
      match afterColonCapture isCatLetter afterS with
      | some cap => some cap
      | none => findCategoryCapture cs
    else findCategoryCapture cs)

/-- Leftmost match of `/confidence\s*[:：]\s*([0-9.]+)/i` on a line. -/
def findConfidenceCapture : List Char → Option (List Char)
  | [] => none
  | c :: cs =>
    (if ciStartsWith "confidence".data (c :: cs) then
      match afterColonCapture (fun d => JSStr.isDigit d || d = '.') ((c :: cs).drop 10) with
      | some cap => some cap
      | none => findConfidenceCapture cs
    else findConfidenceCapture cs)

/-- Leftmost match of `/tags?\s*[:：]\s*(.+)/i` on a line.  `(.+)` takes
the rest of the line; an all-whitespace rest is modelled as no match,
which leaves the same final state (the backtracked one-whitespace capture
of the real regex is split and filtered into nothing). -/
def findTagsCapture : List Char → Option (List Char)
  | [] => none
  | c :: cs =>
    (if ciStartsWith "tag".data (c :: cs) then
      let after := (c :: cs).drop 3
      let afterS :=
        match after with
        | d :: ds => if d = 's' || d = 'S' then ds else after
        | [] => after
      match afterColonCapture (fun _ => true) afterS with
      | some cap => some cap
      | none => findTagsCapture cs
    else findTagsCapture cs)

/-- The separator class of the tag split `/[,\s，、]+/`. -/
def isTagSep (c : Char) : Bool :=
  c = ',' || JSStr.isJsWhitespace c || c = '，' || c = '、'

/-- JS `split` on `/[,\s，、]+/`: a run of separators is one boundary. -/
def splitOnSepRuns : List Char → List (List Char)
  | [] => [[]]
  | c :: cs =>
    if isTagSep c then
      match cs with
      | d :: _ =>
        if isTagSep d then splitOnSepRuns cs else [] :: splitOnSepRuns cs
      | [] => [] :: splitOnSepRuns cs
    else
      match splitOnSepRuns cs with
      | [] => [[c]]
      | p :: ps => (c :: p) :: ps

/-- The mutable locals of `extractStructuredData`
(`src/core/ollama-engine.ts` lines 322-365). -/
structure ExtractState where
  category : String
  confidence : JSNum
  tags : List String
  reasoning : String

def jsDiv100 : JSNum → JSNum
  | .num f => .num (f.divByNat 100)
  | .nan => .nan

/-- One iteration of the `for (const line of lines)` loop. -/
def processLine (st : ExtractState) (line : List Char) : ExtractState :=
  let st1 :=
    match findCategoryCapture line with
    | some cap => { st with category := String.mk (JSStr.lowerList cap) }
    | none => st
  let st2 :=
    match findConfidenceCapture line with
    | some cap =>
      let c := JSStr.parseFloatQ cap
      { st1 with confidence := if c.gtQ (Frac.ofInt 1) then jsDiv100 c else c }
    | none => st1
  let st3 :=
    match findTagsCapture line with
    | some cap =>
      let tagList := (splitOnSepRuns cap).filter
        (fun t => !(JSStr.trimChars t).isEmpty && 1 < t.length)
      { st2 with tags := st2.tags ++ tagList.map String.mk }
    | none => st2
  let lower := JSStr.lowerList line
  if containsSub "reason".data lower || containsSub "because".data lower ||
      containsSub "说明".data lower || containsSub "理由".data lower then
    { st3 with reasoning := st3.reasoning ++ String.mk line ++ " " }
  else st3

/-- The keyword list of the tag fallback (lines 384-407). -/
def iconKeywords : List String :=
  ["icon", "button", "navigation", "arrow", "home", "user", "search", "menu",
   "settings", "close", "check", "delete", "edit", "add",
   "图标", "按钮", "导航", "箭头", "主页", "用户", "搜索", "菜单"]

/-- The keyword scan: push every keyword contained in the content, but
stop once three tags were collected. -/
def scanKeywords (contentLower : List Char) : List String → List String → List String
  | [], acc => acc
  | kw :: rest, acc =>
    if containsSub (JSStr.lowerList kw.data) contentLower then
      let acc2 := acc ++ [kw]
      if 3 ≤ acc2.length then acc2 else scanKeywords contentLower rest acc2
    else scanKeywords contentLower rest acc

/-- `extractStructuredData` (`src/core/ollama-engine.ts` lines 322-433),
parameterized by the configured category names (`config.categories`
keys). -/
def extractStructuredData (cats : List String) (content : String) : AIResponse :=
  let lines := JSStr.splitOnChar '\n' content.data
  let st0 : ExtractState := ⟨"interface", JSNum.num ⟨3, 10⟩, [], ""⟩
  let st := lines.foldl processLine st0
  let contentLower := JSStr.lowerList content.data
  let st2 :=
    if st.category = "interface" then
      match cats.find? (fun cat => containsSub (JSStr.lowerList cat.data) contentLower) with
      | some cat => { st with category := cat, confidence := JSNum.num ⟨2, 5⟩ }
      | none => st
    else st
  let tags2 :=
    if st2.tags.isEmpty then scanKeywords contentLower iconKeywords [] else st2.tags
  let tags3 := if tags2.isEmpty then ["icon", "ui", "interface"] else tags2
  let reasoning2 :=
    if (JSStr.trimChars st2.reasoning.data).isEmpty then
      "Fallback classification as \x27" ++ st2.category ++
        "\x27 due to non-JSON response from model"
    else st2.reasoning
  { category := JSValue.str st2.category
    tags := (tags3.take 5).map JSValue.str
    confidence := JSNum.jsMax (JSNum.num ⟨1, 10⟩)
      (JSNum.jsMin (JSNum.num (Frac.ofInt 1)) st2.confidence)
    reasoning := JSValue.str (String.mk (JSStr.trimChars reasoning2.data)) }

/-- `parseAIResponse` (`src/core/ollama-engine.ts` lines 251-320),
parameterized by the `JSON.parse` implementation (the theorems below
quantify over it) and the configured category names. -/
def parseAIResponseWith (jsonParse : String → Option JSValue) (cats : List String)
    (content : String) : AIResponse :=
  let cleaned := cleanedContent content
  match lastBraceMatch (cleaned.length + 1) cleaned with
  | none => extractStructuredData cats content
  | some jsonMatch =>
    match jsonParse (String.mk jsonMatch) with
    | none => extractStructuredData cats content   -- JSON.parse threw
    | some parsed =>
      let catF := parsed.getField "category"
      let tagsF := parsed.getField "tags"
      if !(match catF with | some v => v.truthy | none => false) &&
          !(match tagsF with | some v => v.truthy | none => false) then
        extractStructuredData cats content
      else
        { category :=
            match catF with
            | some v => if v.truthy then v else JSValue.str "interface"
            | none => JSValue.str "interface"
          tags :=
            match tagsF with
            | some (JSValue.arr l) => l.take 5
            | _ => []
          confidence :=
            match parsed.getField "confidence" with
            | some (JSValue.num f) =>
              JSNum.num (Frac.maxF ⟨0, 1⟩ (Frac.minF (Frac.ofInt 1) f))
            | _ => JSNum.num ⟨1, 2⟩
          reasoning :=
            match parsed.getField "reasoning" with
            | some v => if v.truthy then v else JSValue.str "Parsed from model response"
            | none => JSValue.str "Parsed from model response" }

/-- The category names of `defaultConfig.categories`
(`src/config/index.ts`). -/
def defaultCategories : List String :=
  ["interface", "media", "action", "alert", "avatar", "communication",
   "content", "device", "editor", "file", "health", "image", "location",
   "maps", "navigation", "notification", "social", "text", "time",
   "transportation", "travel", "shopping", "sports", "science",
   "education", "food", "emoji", "flags"]

/-- The parser as deployed: real `JSON.parse` and the default category
configuration. -/
def parseAIResponse (content : String) : AIResponse :=
  parseAIResponseWith JSONParse.jsonParseJS defaultCategories content

end OllamaEngine

namespace OllamaEngine

theorem clamp_val_bounds (lo f : Frac) (hlon : 0 ≤ lo.n) (hlod : 0 < lo.d)
    (hlo1 : lo.n ≤ lo.d) :
    0 ≤ (Frac.maxF lo (Frac.minF (Frac.ofInt 1) f)).val ∧
      (Frac.maxF lo (Frac.minF (Frac.ofInt 1) f)).val ≤ 1 := by
  have hlod2 : (0 : ℚ) < (lo.d : ℚ) := by exact_mod_cast hlod
  have hloval : 0 ≤ lo.val ∧ lo.val ≤ 1 := by
    constructor
    · exact Frac.val_nonneg hlon
    · rw [Frac.val, div_le_one hlod2]
      exact_mod_cast hlo1
  by_cases h1 : Frac.le (Frac.ofInt 1) f = true
  · rw [Frac.minF, if_pos h1]
    by_cases h2 : Frac.le (Frac.ofInt 1) lo = true
    · rw [Frac.maxF, if_pos h2]
      have hdn : lo.d ≤ lo.n := by
        have := (decide_eq_true_eq).mp h2
        simpa [Frac.ofInt] using this
      have hnd : lo.n = (lo.d : Int) := le_antisymm hlo1 hdn
      constructor
      · exact hloval.1
      · exact hloval.2
    · rw [Frac.maxF, if_neg h2]
      rw [Frac.ofInt, Frac.val]
      norm_num
  · rw [Frac.minF, if_neg h1]
    have hfn : f.n < (f.d : Int) := by
      have h1b : Frac.le (Frac.ofInt 1) f = false := by simpa using h1
      rw [Frac.le] at h1b
      have := of_decide_eq_false h1b
      simp only [Frac.ofInt, one_mul, mul_one] at this
      omega
    by_cases h2 : Frac.le f lo = true
    · rw [Frac.maxF, if_pos h2]
      exact hloval
    · rw [Frac.maxF, if_neg h2]
      have hlt : lo.n * f.d < f.n * lo.d := by
        have h2b : Frac.le f lo = false := by simpa using h2
        rw [Frac.le] at h2b
        have := of_decide_eq_false h2b
        omega
      have hfnpos : 0 < f.n := by
        by_contra hneg
        push_neg at hneg
        have h3 : f.n * lo.d ≤ 0 := mul_nonpos_of_nonpos_of_nonneg hneg (Int.natCast_nonneg _)
        have h4 : 0 ≤ lo.n * f.d := mul_nonneg hlon (Int.natCast_nonneg _)
        omega
      have hfdpos : (0 : Int) < f.d := lt_trans hfnpos hfn
      have hfdpos2 : (0 : ℚ) < (f.d : ℚ) := by exact_mod_cast hfdpos
      constructor
      · exact Frac.val_nonneg (le_of_lt hfnpos)
      · rw [Frac.val, div_le_one hfdpos2]
        exact_mod_cast le_of_lt hfn

theorem afterColonCapture_ne_nil {pred : Char → Bool} {l cap : List Char}
    (h : afterColonCapture pred l = some cap) : cap ≠ [] := by
  rw [afterColonCapture] at h
  dsimp only at h
  split at h
  · split at h
    · split at h
      · exact absurd h (by simp)
      · rename_i hne
        cases h
        simpa [List.isEmpty_iff] using hne
    · exact absurd h (by simp)
  · exact absurd h (by simp)

theorem findCategoryCapture_ne_nil :
    ∀ {l cap : List Char}, findCategoryCapture l = some cap → cap ≠ []
  | [], _, h => absurd h (by simp [findCategoryCapture])
  | c :: cs, cap, h => by
    rw [findCategoryCapture] at h
    dsimp only at h
    split at h
    · split at h
      · rename_i hsome
        cases h
        exact afterColonCapture_ne_nil hsome
      · exact findCategoryCapture_ne_nil h
    · exact findCategoryCapture_ne_nil h

theorem mk_ne_empty {l : List Char} (h : l ≠ []) : String.mk l ≠ "" := by
  intro hc
  exact h (congrArg String.data hc)

theorem processLine_category (st : ExtractState) (line : List Char) :
    (processLine st line).category =
      match findCategoryCapture line with
      | some cap => String.mk (JSStr.lowerList cap)
      | none => st.category := by
  rcases h1 : findCategoryCapture line with _ | cap1 <;>
    rcases h2 : findConfidenceCapture line with _ | cap2 <;>
    rcases h3 : findTagsCapture line with _ | cap3 <;>
    simp only [processLine, h1, h2, h3] <;>
    split <;> rfl

theorem processLine_category_ne {st : ExtractState} {line : List Char}
    (h : st.category ≠ "") : (processLine st line).category ≠ "" := by
  rw [processLine_category]
  rcases h1 : findCategoryCapture line with _ | cap
  · exact h
  · exact mk_ne_empty (by
      intro hnil
      exact findCategoryCapture_ne_nil h1 (List.map_eq_nil_iff.mp hnil))

theorem foldl_processLine_category_ne :
    ∀ (lines : List (List Char)) (st : ExtractState), st.category ≠ "" →
      (lines.foldl processLine st).category ≠ ""
  | [], _, h => h
  | l :: ls, st, h =>
    foldl_processLine_category_ne ls (processLine st l) (processLine_category_ne h)

theorem jsClamp_bounds (c : JSNum) :
    JSNum.jsMax (JSNum.num ⟨1, 10⟩) (JSNum.jsMin (JSNum.num (Frac.ofInt 1)) c) = JSNum.nan ∨
    ∃ f, JSNum.jsMax (JSNum.num ⟨1, 10⟩) (JSNum.jsMin (JSNum.num (Frac.ofInt 1)) c) =
        JSNum.num f ∧ 0 ≤ f.val ∧ f.val ≤ 1 := by
  cases c with
  | nan => left; rfl
  | num f =>
    right
    refine ⟨_, rfl, ?_⟩
    exact clamp_val_bounds ⟨1, 10⟩ f (by decide) (by decide) (by decide)

theorem extractStructuredData_tags_le (cats : List String) (content : String) :
    (extractStructuredData cats content).tags.length ≤ 5 := by
  simp only [extractStructuredData]
  rw [List.length_map]
  exact List.length_take_le 5 _

theorem extractStructuredData_conf (cats : List String) (content : String) :
    (extractStructuredData cats content).confidence = JSNum.nan ∨
    ∃ f, (extractStructuredData cats content).confidence = JSNum.num f ∧
      0 ≤ f.val ∧ f.val ≤ 1 := by
  simp only [extractStructuredData]
  exact jsClamp_bounds _

theorem extractStructuredData_cat (cats : List String) (content : String)
    (hcats : ∀ c ∈ cats, c ≠ "") :
    ∀ s, (extractStructuredData cats content).category = JSValue.str s → s ≠ "" := by
  intro s hs
  have hfold : ((JSStr.splitOnChar '\n' content.data).foldl processLine
      ⟨"interface", JSNum.num ⟨3, 10⟩, [], ""⟩).category ≠ "" :=
    foldl_processLine_category_ne _ _ (by simp)
  simp only [extractStructuredData] at hs
  split at hs
  · split at hs
    · rename_i cat hfind
      rw [JSValue.str.injEq] at hs
      subst hs
      exact hcats cat (List.mem_of_find?_eq_some hfind)
    · rw [JSValue.str.injEq] at hs
      subst hs
      exact hfold
  · rw [JSValue.str.injEq] at hs
    subst hs
    exact hfold

end OllamaEngine

/-- Claim C3 (amended) — the response parser is a total function (no
throw path exists in the model), and for EVERY input string and every
behavior of `JSON.parse`: the returned tags list has length at most 5;
the confidence is either a rational in [0, 1] or NaN (NaN arises only
from `parseFloat` of a digit-free fallback capture such as
`"confidence: ."`); and the category, WHEN it is a string, is non-empty
(the structured path can also propagate a truthy non-string JSON value
verbatim, e.g. a number).  Requires the configured category names to be
non-empty, as the default configuration's are. -/
theorem claim_C3_parser_amended (jsonParse : String → Option JSValue)
    (cats : List String) (content : String) (hcats : ∀ c ∈ cats, c ≠ "") :
    (OllamaEngine.parseAIResponseWith jsonParse cats content).tags.length ≤ 5 ∧
    ((OllamaEngine.parseAIResponseWith jsonParse cats content).confidence = JSNum.nan ∨
      ∃ f, (OllamaEngine.parseAIResponseWith jsonParse cats content).confidence =
          JSNum.num f ∧ 0 ≤ f.val ∧ f.val ≤ 1) ∧
    (∀ s, (OllamaEngine.parseAIResponseWith jsonParse cats content).category =
        JSValue.str s → s ≠ "") := by
  simp only [OllamaEngine.parseAIResponseWith]
  split
  · exact ⟨OllamaEngine.extractStructuredData_tags_le cats content,
      OllamaEngine.extractStructuredData_conf cats content,
      OllamaEngine.extractStructuredData_cat cats content hcats⟩
  · split
    · exact ⟨OllamaEngine.extractStructuredData_tags_le cats content,
        OllamaEngine.extractStructuredData_conf cats content,
        OllamaEngine.extractStructuredData_cat cats content hcats⟩
    · split
      · exact ⟨OllamaEngine.extractStructuredData_tags_le cats content,
          OllamaEngine.extractStructuredData_conf cats content,
          OllamaEngine.extractStructuredData_cat cats content hcats⟩
      · refine ⟨?_, ?_, ?_⟩ <;> dsimp only
        · split
          · exact List.length_take_le 5 _
          · simp
        · split
          · rename_i f _
            right
            refine ⟨_, rfl, ?_⟩
            exact OllamaEngine.clamp_val_bounds ⟨0, 1⟩ f (by decide) (by decide) (by decide)
          · right
            refine ⟨⟨1, 2⟩, rfl, ?_⟩
            rw [Frac.val]
            norm_num
        · intro s hs
          split at hs
          · rename_i v hget
            split at hs
            · rename_i htruthy
              subst hs
              intro hc
              subst hc
              exact absurd htruthy (by decide)
            · rw [JSValue.str.injEq] at hs
              subst hs
              simp
          · rw [JSValue.str.injEq] at hs
            subst hs
            simp

/-- Counterexample to claim C3 as stated.  On the plain-prose input
`"confidence: ."` the fallback extractor captures `"."` for the
confidence pattern, `parseFloat(".")` is NaN, and NaN passes through
`Math.max(0.1, Math.min(1.0, NaN))` untouched — the returned confidence
is NaN, not a value in [0, 1].  And on the valid-JSON input
`'\x7b"category":5,"tags":["a"]\x7d'` the parser returns the number 5 as the
category — not a non-empty string. -/
theorem claim_C3_counterexample :
    (OllamaEngine.parseAIResponse "confidence: .").confidence = JSNum.nan ∧
    (OllamaEngine.parseAIResponse "\x7b\"category\":5,\"tags\":[\"a\"]\x7d").category =
      JSValue.num ⟨5, 1⟩ ∧
    (OllamaEngine.parseAIResponse "\x7b\"category\":5,\"tags\":[\"a\"]\x7d").category.isStr =
      false :=
  ⟨rfl, rfl, rfl⟩

/-- Witness for the amended C3 at the spec's Scenario C input. -/
theorem claim_C3_witness :
    (∀ c ∈ OllamaEngine.defaultCategories, c ≠ "") ∧
    ((OllamaEngine.parseAIResponseWith JSONParse.jsonParseJS OllamaEngine.defaultCategories
        "Sure! Here is the classification: \x7b\"category\":\"navigation\",\"tags\":[\"back\"],\"confidence\":0.9\x7d").tags.length ≤ 5 ∧
      ((OllamaEngine.parseAIResponseWith JSONParse.jsonParseJS OllamaEngine.defaultCategories
        "Sure! Here is the classification: \x7b\"category\":\"navigation\",\"tags\":[\"back\"],\"confidence\":0.9\x7d").confidence = JSNum.nan ∨
        ∃ f, (OllamaEngine.parseAIResponseWith JSONParse.jsonParseJS OllamaEngine.defaultCategories
          "Sure! Here is the classification: \x7b\"category\":\"navigation\",\"tags\":[\"back\"],\"confidence\":0.9\x7d").confidence =
            JSNum.num f ∧ 0 ≤ f.val ∧ f.val ≤ 1) ∧
      (∀ s, (OllamaEngine.parseAIResponseWith JSONParse.jsonParseJS OllamaEngine.defaultCategories
        "Sure! Here is the classification: \x7b\"category\":\"navigation\",\"tags\":[\"back\"],\"confidence\":0.9\x7d").category =
          JSValue.str s → s ≠ "")) :=
  ⟨by decide, claim_C3_parser_amended JSONParse.jsonParseJS OllamaEngine.defaultCategories
    "Sure! Here is the classification: \x7b\"category\":\"navigation\",\"tags\":[\"back\"],\"confidence\":0.9\x7d"
    (by decide)⟩

namespace OllamaEngine

/-- One attempt outcome of `analyzeIconOnce` as the retry loop sees it:
a parsed response, or a thrown error message. -/
inductive AttemptResult where
  | success (r : AIResponse)
  | failure (msg : String)

/-- `private maxRetries: number = 3` (`src/core/ollama-engine.ts` line 8). -/
def maxRetries : Nat := 3

/-- The configuration-class test of the retry loop (lines 55-60): the
caught message contains the unreachable-service text or the
model-not-found text. -/
def isConfigError (msg : String) : Bool :=
  containsSub "无法连接到Ollama服务".data msg.data || containsSub "未找到".data msg.data

/-- What one `analyzeIcon` call produces: its outcome, the sleeps it
performed (in ms), how many attempts it made, and the value left in the
engine's `retryDelay` field. -/
structure CallResult where
  outcome : Except String AIResponse
  sleeps : List Frac
  attemptsMade : Nat
  finalDelay : Frac

/-- The retry loop of `analyzeIcon` (lines 45-77), with per-attempt
outcomes supplied by the oracle `out`: `i` is the attempt index,
`remaining` the attempts left, `delay` the current `this.retryDelay`, and
`lastError` the previously caught error.  A sleep of the current delay
happens before the delay is multiplied by 1.5 and capped at 10000. -/
def analyzeIconGo (out : Nat → AttemptResult) :
    Nat → Nat → Frac → Option String → CallResult
  | _, 0, delay, lastError => ⟨.error (lastError.getD "分析失败"), [], 0, delay⟩
  | i, remaining + 1, delay, _lastError =>
    match out i with
    | .success r => ⟨.ok r, [], 1, delay⟩
    | .failure msg =>
      if isConfigError msg then ⟨.error msg, [], 1, delay⟩
      else if 0 < remaining then
        let delay2 := Frac.minF (Frac.mul delay ⟨3, 2⟩) (Frac.ofInt 10000)
        let rest := analyzeIconGo out (i + 1) remaining delay2 (some msg)
        ⟨rest.outcome, delay :: rest.sleeps, rest.attemptsMade + 1, rest.finalDelay⟩
      else
        let rest := analyzeIconGo out (i + 1) remaining delay (some msg)
        ⟨rest.outcome, rest.sleeps, rest.attemptsMade + 1, rest.finalDelay⟩

/-- `analyzeIcon` on an engine whose `retryDelay` field currently holds
`delay`.  The field starts at 1000 when the engine is constructed and is
NOT reset between calls: the next call on the same engine starts from
`finalDelay`. -/
def analyzeIcon (out : Nat → AttemptResult) (delay : Frac) : CallResult :=
  analyzeIconGo out 0 maxRetries delay none

end OllamaEngine

/-- Claim C7 (amended) — per call at most 3 attempts are made; between
consecutive attempts the engine sleeps the current retry delay and then
multiplies it by 1.5 capped at 10000 ms, so the sleep sequence of one
call is a prefix of [d, min(1.5·d, 10000)] where d is the engine's
CURRENT delay — engine-instance state that starts at 1000 ms at
construction and persists across calls rather than being reset per call;
a first-attempt configuration-class failure (service unreachable, model
not found) is rethrown immediately, after exactly one attempt and no
sleep; a first-attempt success likewise ends the call after one
attempt. -/
theorem claim_C7_retry_amended (out : Nat → OllamaEngine.AttemptResult) (delay : Frac) :
    (OllamaEngine.analyzeIcon out delay).attemptsMade ≤ 3 ∧
    ((OllamaEngine.analyzeIcon out delay).sleeps = [] ∨
      (OllamaEngine.analyzeIcon out delay).sleeps = [delay] ∨
      (OllamaEngine.analyzeIcon out delay).sleeps =
        [delay, Frac.minF (Frac.mul delay ⟨3, 2⟩) (Frac.ofInt 10000)]) ∧
    (∀ msg, out 0 = .failure msg → OllamaEngine.isConfigError msg = true →
      OllamaEngine.analyzeIcon out delay = ⟨.error msg, [], 1, delay⟩) ∧
    (∀ r, out 0 = .success r →
      OllamaEngine.analyzeIcon out delay = ⟨.ok r, [], 1, delay⟩) := by
  rcases h0 : out 0 with r0 | m0
  · have hres : OllamaEngine.analyzeIcon out delay = ⟨.ok r0, [], 1, delay⟩ := by
      simp [OllamaEngine.analyzeIcon, OllamaEngine.maxRetries, OllamaEngine.analyzeIconGo, h0]
    refine ⟨by rw [hres]; norm_num, Or.inl (by rw [hres]), ?_, ?_⟩
    · intro msg hmsg hcfg
      cases hmsg
    · intro r hr
      cases hr
      exact hres
  · by_cases hc0 : OllamaEngine.isConfigError m0 = true
    · have hres : OllamaEngine.analyzeIcon out delay = ⟨.error m0, [], 1, delay⟩ := by
        simp [OllamaEngine.analyzeIcon, OllamaEngine.maxRetries, OllamaEngine.analyzeIconGo,
          h0, hc0]
      refine ⟨by rw [hres]; norm_num, Or.inl (by rw [hres]), ?_, ?_⟩
      · intro msg hmsg hcfg
        cases hmsg
        exact hres
      · intro r hr
        cases hr
    · have hc0f : OllamaEngine.isConfigError m0 = false := by
        simpa using hc0
      rcases h1 : out 1 with r1 | m1
      · have hres : OllamaEngine.analyzeIcon out delay =
            ⟨.ok r1, [delay], 2, Frac.minF (Frac.mul delay ⟨3, 2⟩) (Frac.ofInt 10000)⟩ := by
          simp [OllamaEngine.analyzeIcon, OllamaEngine.maxRetries, OllamaEngine.analyzeIconGo,
            h0, h1, hc0f]
        refine ⟨by rw [hres]; norm_num, Or.inr (Or.inl (by rw [hres])), ?_, ?_⟩
        · intro msg hmsg hcfg
          cases hmsg
          exact absurd hcfg hc0
        · intro r hr
          cases hr
      · by_cases hc1 : OllamaEngine.isConfigError m1 = true
        · have hres : OllamaEngine.analyzeIcon out delay =
              ⟨.error m1, [delay], 2, Frac.minF (Frac.mul delay ⟨3, 2⟩) (Frac.ofInt 10000)⟩ := by
            simp [OllamaEngine.analyzeIcon, OllamaEngine.maxRetries, OllamaEngine.analyzeIconGo,
              h0, h1, hc0f, hc1]
          refine ⟨by rw [hres]; norm_num, Or.inr (Or.inl (by rw [hres])), ?_, ?_⟩
          · intro msg hmsg hcfg
            cases hmsg
            exact absurd hcfg hc0
          · intro r hr
            cases hr
        · have hc1f : OllamaEngine.isConfigError m1 = false := by
            simpa using hc1
          rcases h2 : out 2 with r2 | m2
          · have hres : OllamaEngine.analyzeIcon out delay =
                ⟨.ok r2, [delay, Frac.minF (Frac.mul delay ⟨3, 2⟩) (Frac.ofInt 10000)], 3,
                  Frac.minF (Frac.mul (Frac.minF (Frac.mul delay ⟨3, 2⟩) (Frac.ofInt 10000))
                    ⟨3, 2⟩) (Frac.ofInt 10000)⟩ := by
              simp [OllamaEngine.analyzeIcon, OllamaEngine.maxRetries,
                OllamaEngine.analyzeIconGo, h0, h1, h2, hc0f, hc1f]
            refine ⟨by rw [hres], Or.inr (Or.inr (by rw [hres])), ?_, ?_⟩
            · intro msg hmsg hcfg
              cases hmsg
              exact absurd hcfg hc0
            · intro r hr
              cases hr
          · have hres : OllamaEngine.analyzeIcon out delay =
                ⟨.error m2, [delay, Frac.minF (Frac.mul delay ⟨3, 2⟩) (Frac.ofInt 10000)], 3,
                  Frac.minF (Frac.mul (Frac.minF (Frac.mul delay ⟨3, 2⟩) (Frac.ofInt 10000))
                    ⟨3, 2⟩) (Frac.ofInt 10000)⟩ := by
              by_cases hc2 : OllamaEngine.isConfigError m2 = true
              · simp [OllamaEngine.analyzeIcon, OllamaEngine.maxRetries,
                  OllamaEngine.analyzeIconGo, h0, h1, h2, hc0f, hc1f, hc2]
              · have hc2f : OllamaEngine.isConfigError m2 = false := by simpa using hc2
                simp [OllamaEngine.analyzeIcon, OllamaEngine.maxRetries,
                  OllamaEngine.analyzeIconGo, h0, h1, h2, hc0f, hc1f, hc2f]
            refine ⟨by rw [hres], Or.inr (Or.inr (by rw [hres])), ?_, ?_⟩
            · intro msg hmsg hcfg
              cases hmsg
              exact absurd hcfg hc0
            · intro r hr
              cases hr

/-- A response used by the retry oracles. -/
def c7resp : OllamaEngine.AIResponse :=
  ⟨JSValue.str "navigation", [JSValue.str "back"], JSNum.num ⟨9, 10⟩, JSValue.str "ok"⟩

/-- First call: two transient failures, then success. -/
def c7out1 : Nat → OllamaEngine.AttemptResult :=
  fun i => if i < 2 then .failure "timeout" else .success c7resp

/-- Second call on the same engine: one transient failure, then success. -/
def c7out2 : Nat → OllamaEngine.AttemptResult :=
  fun i => if i = 0 then .failure "timeout" else .success c7resp

/-- A configuration-class failure message (model not found). -/
def c7cfgOut : Nat → OllamaEngine.AttemptResult :=
  fun _ => .failure "模型 llava 未找到。"

/-- Counterexample to claim C7 as stated: the backoff is NOT per-call.
`retryDelay` is an instance field that is never reset, so after a first
call that slept twice (1000 ms then 1500 ms, leaving the field at
2250 ms), the next call on the same engine sleeps 2250 ms before its
retry — not the 1000 ms base delay the claim requires. -/
theorem claim_C7_counterexample :
    (OllamaEngine.analyzeIcon c7out1 (Frac.ofInt 1000)).sleeps.map Frac.val =
      [1000, 1500] ∧
    (OllamaEngine.analyzeIcon c7out1 (Frac.ofInt 1000)).finalDelay.val = 2250 ∧
    (OllamaEngine.analyzeIcon c7out2
        (OllamaEngine.analyzeIcon c7out1 (Frac.ofInt 1000)).finalDelay).sleeps.map Frac.val =
      [2250] ∧
    (2250 : ℚ) ≠ 1000 := by
  have h1 : (OllamaEngine.analyzeIcon c7out1 (Frac.ofInt 1000)).sleeps =
      [⟨1000, 1⟩, ⟨3000, 2⟩] := rfl
  have h2 : (OllamaEngine.analyzeIcon c7out1 (Frac.ofInt 1000)).finalDelay = ⟨9000, 4⟩ := rfl
  have h3 : (OllamaEngine.analyzeIcon c7out2
      (OllamaEngine.analyzeIcon c7out1 (Frac.ofInt 1000)).finalDelay).sleeps =
      [⟨9000, 4⟩] := rfl
  refine ⟨?_, ?_, ?_, by norm_num⟩
  · rw [h1]
    simp [Frac.val]
    norm_num
  · rw [h2, Frac.val]
    norm_num
  · rw [h3]
    simp [Frac.val]
    norm_num

/-- Witness for the amended C7: a model-not-found failure on the first
attempt ends the call immediately — one attempt, no sleep, delay
untouched. -/
theorem claim_C7_witness :
    OllamaEngine.isConfigError "模型 llava 未找到。" = true ∧
    OllamaEngine.analyzeIcon c7cfgOut (Frac.ofInt 1000) =
      ⟨.error "模型 llava 未找到。", [], 1, Frac.ofInt 1000⟩ :=
  ⟨by decide,
   (claim_C7_retry_amended c7cfgOut (Frac.ofInt 1000)).2.2.1 "模型 llava 未找到。" rfl
     (by decide)⟩

namespace OllamaEngine

/-- JS `Map.prototype.set` on an ordered association list: replace in
place, else append. -/
def mapSet : List (String × AIResponse) → String → AIResponse → List (String × AIResponse)
  | [], k, v => [(k, v)]
  | (k1, v1) :: rest, k, v =>
    if k1 = k then (k1, v) :: rest else (k1, v1) :: mapSet rest k v

/-- JS `Map.prototype.get`: the entry at the (unique) key, if any. -/
def mapGet : List (String × AIResponse) → String → Option AIResponse
  | [], _ => none
  | (k1, v) :: rest, k => if k1 = k then some v else mapGet rest k

/-- The per-icon try/catch of `batchAnalyze`
(`src/core/ollama-engine.ts` lines 449-474): a failed `analyzeIcon`
becomes an error-category record instead of aborting the batch. -/
def batchItemResult (analyze : IconInfo → Except String AIResponse)
    (icon : IconInfo) : AIResponse :=
  match analyze icon with
  | .ok r => r
  | .error e =>
    ⟨JSValue.str "error", [], JSNum.num ⟨0, 1⟩, JSValue.str ("Analysis failed: " ++ e)⟩

/-- `batchAnalyze` (lines 435-495).  The icons are processed in slices of
`maxConcurrent`; within a slice `Promise.all` preserves the slice order
and `batchResults.forEach` writes in that order, and slices run
sequentially, so the final map contents are a left fold over the original
icon order (the stagger and inter-slice sleeps never affect the map).
`analyze` abstracts one `analyzeIcon` call. -/
def batchAnalyze (analyze : IconInfo → Except String AIResponse)
    (icons : List IconInfo) : List (String × AIResponse) :=
  icons.foldl (fun results icon => mapSet results icon.id (batchItemResult analyze icon)) []

theorem mapSet_of_not_mem {m : List (String × AIResponse)} {k : String} {v : AIResponse}
    (h : ∀ p ∈ m, p.1 ≠ k) : mapSet m k v = m ++ [(k, v)] := by
  induction m with
  | nil => rfl
  | cons p rest ih =>
    rw [mapSet]
    rw [if_neg (h p (List.mem_cons_self _ _))]
    rw [ih (fun q hq => h q (List.mem_cons_of_mem _ hq))]
    rfl

theorem mapGet_mapSet_self (m : List (String × AIResponse)) (k : String) (v : AIResponse) :
    mapGet (mapSet m k v) k = some v := by
  induction m with
  | nil => simp [mapSet, mapGet]
  | cons p rest ih =>
    rcases p with ⟨k1, v1⟩
    rw [mapSet]
    by_cases h : k1 = k
    · rw [if_pos h]
      rw [mapGet, if_pos h]
    · rw [if_neg h]
      rw [mapGet, if_neg h]
      exact ih

theorem mapGet_mapSet_ne (m : List (String × AIResponse)) (k k2 : String) (v : AIResponse)
    (hne : k ≠ k2) : mapGet (mapSet m k v) k2 = mapGet m k2 := by
  induction m with
  | nil => simp [mapSet, mapGet, hne]
  | cons p rest ih =>
    rcases p with ⟨k1, v1⟩
    rw [mapSet]
    by_cases h : k1 = k
    · rw [if_pos h]
      rw [mapGet, mapGet, if_neg (h ▸ hne), if_neg (h ▸ hne)]
    · rw [if_neg h]
      by_cases h2 : k1 = k2
      · rw [mapGet, mapGet, if_pos h2, if_pos h2]
      · rw [mapGet, mapGet, if_neg h2, if_neg h2]
        exact ih

theorem batch_fold_get_untouched (analyze : IconInfo → Except String AIResponse) :
    ∀ (icons : List IconInfo) (acc : List (String × AIResponse)) (k : String),
      (∀ i ∈ icons, i.id ≠ k) →
      mapGet (icons.foldl
        (fun results icon => mapSet results icon.id (batchItemResult analyze icon)) acc) k =
      mapGet acc k
  | [], _, _, _ => rfl
  | icon :: rest, acc, k, h => by
    rw [List.foldl_cons]
    rw [batch_fold_get_untouched analyze rest _ k
      (fun i hi => h i (List.mem_cons_of_mem _ hi))]
    exact mapGet_mapSet_ne acc icon.id k _ (h icon (List.mem_cons_self _ _))

theorem batch_fold_get (analyze : IconInfo → Except String AIResponse) :
    ∀ (icons : List IconInfo) (acc : List (String × AIResponse)),
      (icons.map (fun i => i.id)).Nodup →
      ∀ icon ∈ icons,
        mapGet (icons.foldl
          (fun results icon => mapSet results icon.id (batchItemResult analyze icon)) acc)
          icon.id = some (batchItemResult analyze icon)
  | [], _, _, icon, hmem => absurd hmem (by simp)
  | icon1 :: rest, acc, hnd, icon, hmem => by
    rw [List.map_cons, List.nodup_cons] at hnd
    rw [List.foldl_cons]
    rcases List.mem_cons.mp hmem with rfl | hmem2
    · rw [batch_fold_get_untouched analyze rest _ icon.id
        (fun i hi hc => hnd.1 (hc ▸ List.mem_map_of_mem (fun x => x.id) hi))]
      exact mapGet_mapSet_self acc icon.id _
    · exact batch_fold_get analyze rest _ hnd.2 icon hmem2

theorem batch_fold_keys (analyze : IconInfo → Except String AIResponse) :
    ∀ (icons : List IconInfo) (acc : List (String × AIResponse)),
      (icons.map (fun i => i.id)).Nodup →
      (∀ i ∈ icons, ∀ p ∈ acc, p.1 ≠ i.id) →
      (icons.foldl
        (fun results icon => mapSet results icon.id (batchItemResult analyze icon)) acc).map
          Prod.fst =
        acc.map Prod.fst ++ icons.map (fun i => i.id)
  | [], acc, _, _ => by simp
  | icon :: rest, acc, hnd, hdisj => by
    rw [List.map_cons, List.nodup_cons] at hnd
    rw [List.foldl_cons]
    rw [mapSet_of_not_mem (fun p hp => hdisj icon (List.mem_cons_self _ _) p hp)]
    rw [batch_fold_keys analyze rest _ hnd.2 (by
      intro i hi p hp
      rcases List.mem_append.mp hp with hp1 | hp2
      · exact hdisj i (List.mem_cons_of_mem _ hi) p hp1
      · have hp1 : p.1 = icon.id := by rw [List.mem_singleton.mp hp2]
        intro hc
        exact hnd.1 (by
          rw [hp1.symm.trans hc]
          exact List.mem_map_of_mem (fun x => x.id) hi))]
    simp

end OllamaEngine

/-- Claim C6 (amended) — `batchAnalyze` is a total function of the
per-item outcomes (every per-item failure is caught), and provided the
input icons have pairwise distinct ids it returns a map with exactly one
entry per input icon id, in input order; an icon whose analysis fails is
mapped to the error record `{category: "error", tags: [], confidence: 0}`
and every other icon to its analysis result.  (With duplicate ids a later
icon's entry overwrites an earlier one's — see the counterexample.) -/
theorem claim_C6_batch_amended (analyze : IconInfo → Except String OllamaEngine.AIResponse)
    (icons : List IconInfo) (hids : (icons.map (fun i => i.id)).Nodup) :
    ((OllamaEngine.batchAnalyze analyze icons).map Prod.fst =
      icons.map (fun i => i.id)) ∧
    (∀ icon ∈ icons, OllamaEngine.mapGet (OllamaEngine.batchAnalyze analyze icons) icon.id =
      some (OllamaEngine.batchItemResult analyze icon)) := by
  constructor
  · have := OllamaEngine.batch_fold_keys analyze icons [] hids (by simp)
    simpa [OllamaEngine.batchAnalyze] using this
  · intro icon hmem
    exact OllamaEngine.batch_fold_get analyze icons [] hids icon hmem

def c6fail : IconInfo := ⟨"dup-id", "f1.svg", "dir1/f1.svg", "c1", 1, "h1"⟩

def c6ok : IconInfo := ⟨"dup-id", "f2.svg", "dir2/f2.svg", "c2", 1, "h2"⟩

/-- An oracle that fails exactly on `f1.svg`. -/
def c6analyze : IconInfo → Except String OllamaEngine.AIResponse :=
  fun i => if i.filename = "f1.svg" then .error "timeout" else .ok c7resp

/-- Counterexample to claim C6 as stated: with two icons sharing an id,
the failing first icon is NOT mapped to an error-category record — the
single map entry for the shared id holds the second icon's success
result. -/
theorem claim_C6_counterexample :
    c6analyze c6fail = .error "timeout" ∧
    OllamaEngine.batchAnalyze c6analyze [c6fail, c6ok] = [("dup-id", c7resp)] ∧
    c7resp.category = JSValue.str "navigation" :=
  ⟨rfl, rfl, rfl⟩

/-- Witness for the amended C6: distinct-id icons, one failing. -/
theorem claim_C6_witness :
    (([c6ok, nearC].map (fun i => i.id)).Nodup) ∧
    (((OllamaEngine.batchAnalyze c6analyze [c6ok, nearC]).map Prod.fst =
        [c6ok, nearC].map (fun i => i.id)) ∧
      (∀ icon ∈ [c6ok, nearC],
        OllamaEngine.mapGet (OllamaEngine.batchAnalyze c6analyze [c6ok, nearC]) icon.id =
          some (OllamaEngine.batchItemResult c6analyze icon))) :=
  ⟨by decide, claim_C6_batch_amended c6analyze [c6ok, nearC] (by decide)⟩

namespace IconProcessor

/-- `ProcessingOptions` (`src/types/index.ts` lines 31-38); `none` models
an absent key, so `getD` below is the `{defaults, ...options}` spread of
the constructor. -/
structure ProcessingOptions where
  outputDir : Option String := none
  dryRun : Option Bool := none
  backup : Option Bool := none
  similarityThreshold : Option Frac := none
  maxConcurrent : Option Nat := none
  verbose : Option Bool := none

inductive OutDir where
  | iconsDir
  | duplicatesDir
deriving DecidableEq, Repr

/-- The filesystem writes the pipeline performs (directory creation is
not tracked; each constructor is one written file). -/
inductive WriteEvent where
  | backupCopy (path : String)
  | svgWrite (iconId : String) (dir : OutDir)
  | pngWrite (iconId : String)
  | reportWrite
  | summaryWrite
deriving DecidableEq, Repr

/-- `saveIconWithMetadata` + `savePngVersion`
(`src/processor/icon-processor.ts` lines 307-375): one SVG write (content
via `SVGUtils.embedMetadata`) and one PNG write. -/
def saveIconWithMetadata (icon : IconInfo) (dir : OutDir) : List WriteEvent :=
  [WriteEvent.svgWrite icon.id dir, WriteEvent.pngWrite icon.id]

/-- `getUniqueIcons` (lines 204-217): remove only the ids found in some
group's DUPLICATES list — group masters are NOT excluded. -/
def getUniqueIcons (icons : List IconInfo) (duplicates : List DuplicateGroup) :
    List IconInfo :=
  let duplicateIds := duplicates.flatMap (fun g => g.duplicates.map (fun d => d.id))
  icons.filter (fun icon => !(duplicateIds.contains icon.id))

/-- `processAndSaveResults` (lines 219-305) as its write sequence and its
`processedCount`: the duplicates loop (master saved into the icons area
when it has an analysis, members always saved into the duplicates area),
then the "Process remaining unique icons" loop over ALL icons (saving
every icon that has an analysis), then the duplicate report and the JSON
summary. -/
def processAndSaveResults (icons : List IconInfo)
    (analysisResults : List (String × OllamaEngine.AIResponse))
    (duplicates : List DuplicateGroup) : List WriteEvent × Nat :=
  let dupPhase := duplicates.foldl (fun (acc : List WriteEvent × Nat) g =>
    let acc1 :=
      match OllamaEngine.mapGet analysisResults g.master.id with
      | some _ => (acc.1 ++ saveIconWithMetadata g.master .iconsDir, acc.2 + 1)
      | none => acc
    (acc1.1 ++ g.duplicates.flatMap (fun d => saveIconWithMetadata d .duplicatesDir),
      acc1.2)) ([], 0)
  let uniqPhase := icons.foldl (fun (acc : List WriteEvent × Nat) icon =>
    match OllamaEngine.mapGet analysisResults icon.id with
    | some _ => (acc.1 ++ saveIconWithMetadata icon .iconsDir, acc.2 + 1)
    | none => acc) dupPhase
  (uniqPhase.1 ++ [WriteEvent.reportWrite, WriteEvent.summaryWrite], uniqPhase.2)

/-- `processDirectory` (lines 42-162), abstracted over the already-loaded
icons (the service check, scan and `loadIcons` are I/O shims) and over
the per-icon backend call.  Writes: the backup copies when
`options.backup` is enabled (the constructor default is `true`), then
everything `processAndSaveResults` writes.  The source never consults
`options.dryRun`, so — faithfully — neither does this model. -/
def processDirectory (options : ProcessingOptions) (icons : List IconInfo)
    (analyze : IconInfo → Except String OllamaEngine.AIResponse) :
    List WriteEvent × Nat :=
  if icons.isEmpty then ([], 0)
  else
    let backupEvents :=
      if options.backup.getD true then icons.map (fun i => WriteEvent.backupCopy i.path)
      else []
    let duplicates := DuplicateDetector.findDuplicates
      (options.similarityThreshold.getD ⟨4, 5⟩) icons
    let uniqueIcons := getUniqueIcons icons duplicates
    let analysisResults := OllamaEngine.batchAnalyze analyze uniqueIcons
    let saved := processAndSaveResults icons analysisResults duplicates
    (backupEvents ++ saved.1, saved.2)

end IconProcessor

/-- Two byte-identical files (same content, same hash) under different
names, plus the always-succeeding backend. -/

def p1a : IconInfo := ⟨"id-a", "a.svg", "./a.svg", "<svg/>", 6, "h1"⟩

def p1b : IconInfo := ⟨"id-b", "b.svg", "./b.svg", "<svg/>", 6, "h1"⟩

def okAnalyze : IconInfo → Except String OllamaEngine.AIResponse :=
  fun _ => .ok c7resp

def dryRunOptions : IconProcessor.ProcessingOptions :=
  { dryRun := some true, backup := some true }

/-- Claim C1 — each input item is claimed to be processed exactly once
(group duplicate, group master, or unique item).  The code violates this:
`getUniqueIcons` removes only duplicate-list ids, so the exact group's
master a stays in the classified set, and `processAndSaveResults` then
saves a once in the duplicates loop AND once more in the
"remaining unique icons" loop over all icons — two SVG writes for a and
`processedCount = 2` for a two-file batch whose second file is a
duplicate. -/
theorem claim_C1_master_processed_twice :
    (IconProcessor.processDirectory {} [p1a, p1b] okAnalyze).1 =
      [.backupCopy "./a.svg", .backupCopy "./b.svg",
       .svgWrite "id-a" .iconsDir, .pngWrite "id-a",
       .svgWrite "id-b" .duplicatesDir, .pngWrite "id-b",
       .svgWrite "id-a" .iconsDir, .pngWrite "id-a",
       .reportWrite, .summaryWrite] ∧
    (IconProcessor.processDirectory {} [p1a, p1b] okAnalyze).2 = 2 ∧
    ((IconProcessor.processDirectory {} [p1a, p1b] okAnalyze).1.count
      (.svgWrite "id-a" .iconsDir)) = 2 := by decide

/-- Claim C9 — with `dryRun = true` the pipeline is claimed to perform no
filesystem writes.  The code violates this: `IconProcessor` never reads
`options.dryRun` (only the CLI's final console message does), so a
dry-run still writes the backup copy, the re-serialized icon, its PNG,
the duplicate report and the JSON summary. -/
theorem claim_C9_dryRun_still_writes :
    dryRunOptions.dryRun = some true ∧
    IconProcessor.processDirectory dryRunOptions [p1a] okAnalyze =
      ([.backupCopy "./a.svg", .svgWrite "id-a" .iconsDir, .pngWrite "id-a",
        .reportWrite, .summaryWrite], 1) ∧
    (IconProcessor.processDirectory dryRunOptions [p1a] okAnalyze).1 ≠ [] := by
  refine ⟨rfl, ?_, ?_⟩
  · have h1 : (IconProcessor.processDirectory dryRunOptions [p1a] okAnalyze).1 =
        [.backupCopy "./a.svg", .svgWrite "id-a" .iconsDir, .pngWrite "id-a",
         .reportWrite, .summaryWrite] := by decide
    have h2 : (IconProcessor.processDirectory dryRunOptions [p1a] okAnalyze).2 = 1 := by decide
    rcases hp : IconProcessor.processDirectory dryRunOptions [p1a] okAnalyze with ⟨e, n⟩
    rw [hp] at h1 h2
    simp at h1 h2
    rw [h1, h2]
  · intro hc
    have h1 : (IconProcessor.processDirectory dryRunOptions [p1a] okAnalyze).1.length = 5 := by
      decide
    rw [hc] at h1
    simp at h1
